import Mathlib

/-!
Verification of the portfolio return/correlation analytics module
(`src/utils/portfolioCalculations.ts`) of the allocation-manager dashboard.

The TypeScript source is shallowly embedded: JavaScript numbers are modelled
as exact rationals (`ℚ`) for prices, percentages and fee rates, and as
integers (`ℤ`) for epoch-millisecond timestamps; `Math.sqrt` is modelled by
`Real.sqrt` on `ℝ`.  Array accesses that can hit `undefined` and then fault
(`undefined.field`) are modelled with `Option`: a faulting computation
returns `none`.  JavaScript `Map`s are modelled as insertion-ordered
association lists (`mapSet` / `mapGet`), matching `Map.set`'s
update-in-place-or-append semantics, and the dynamically keyed chart-row
objects are modelled as a structure holding the dynamic key/value lists.
-/

/-- `NormalizedPriceData` from `services/twelveDataService.ts`:
one price point of an asset's chronological series. -/
structure NormalizedPriceData where
  date : String
  timestamp : ℤ
  price : ℚ
deriving DecidableEq

/-- `PortfolioAsset` from `services/twelveDataService.ts`. -/
structure PortfolioAsset where
  symbol : String
  displayName : String
  color : String
  data : List NormalizedPriceData
deriving DecidableEq

/-- `ReturnDataPoint` from `utils/portfolioCalculations.ts`; the optional
`smaReturnPercent?` field becomes an explicit `Option`. -/
structure ReturnDataPoint where
  date : String
  timestamp : ℤ
  returnPercent : ℚ
  price : ℚ
  smaReturnPercent : Option ℚ
deriving DecidableEq

/-- `PortfolioReturnData` from `utils/portfolioCalculations.ts`. -/
structure PortfolioReturnData where
  symbol : String
  displayName : String
  color : String
  returns : List ReturnDataPoint
deriving DecidableEq

/-- Default `ReturnDataPoint`, used only as the default of `List.getD` at
indices that are proved in range. -/
def rdp0 : ReturnDataPoint := ⟨"", 0, 0, 0, none⟩

/-- Default `NormalizedPriceData` for `List.getD` at in-range indices. -/
def npd0 : NormalizedPriceData := ⟨"", 0, 0⟩

/-- Default `PortfolioReturnData` for `List.getD` at in-range indices. -/
def pdr0 : PortfolioReturnData := ⟨"", "", "", []⟩

/-- JavaScript array indexing `arr[i]` with a possibly negative index:
`undefined` (here `none`) when out of range. -/
def listAt {α : Type} (l : List α) (i : ℤ) : Option α :=
  if 0 ≤ i then l[i.toNat]? else none

/-- JavaScript `Map.prototype.set` on an insertion-ordered association list:
update in place when the key is present, append otherwise. -/
def mapSet {α : Type} (m : List (String × α)) (k : String) (v : α) :
    List (String × α) :=
  if m.any (fun p => p.1 == k) then
    m.map (fun p => if p.1 = k then (k, v) else p)
  else
    m ++ [(k, v)]

/-- JavaScript `Map.prototype.get`: `undefined` (here `none`) when absent. -/
def mapGet {α : Type} (m : List (String × α)) (k : String) : Option α :=
  (m.find? (fun p => p.1 == k)).map (fun p => p.2)

/-- `Number(q.toFixed(2))`: round to two decimals, ties away from zero
(ECMAScript `toFixed` extracts the sign and rounds the magnitude up on
ties). -/
def rounded2 (q : ℚ) : ℚ :=
  ((if q < 0 then -round (-q * 100) else round (q * 100) : ℤ) : ℚ) / 100

/-- `calculateReturns`: percentage returns of a price series relative to the
price at `startIndex`.  The source returns `[]` for empty input before
reading `priceData[startIndex].price`; a non-empty series with an
out-of-range `startIndex` faults (`undefined.price`), modelled as `none`. -/
def calculateReturns (priceData : List NormalizedPriceData)
    (startIndex : ℕ) : Option (List ReturnDataPoint) :=
  if priceData.length = 0 then some [] else
  match priceData[startIndex]? with
  | none => none
  | some startPoint =>
    let startPrice := startPoint.price
    some (priceData.map (fun point =>
      { date := point.date
        timestamp := point.timestamp
        returnPercent := (point.price - startPrice) / startPrice * 100
        price := point.price
        smaReturnPercent := none }))

/-- `calculateSMA`: trailing simple moving average of `returnPercent` over
`window` points; `undefined` (`none`) before index `window - 1`.  The
`slice(index - window + 1, index + 1)` becomes `drop`/`take`; the source is
only invoked with `window ≥ 1`, for which the bounds coincide. -/
def calculateSMA (returns : List ReturnDataPoint) (window : ℤ) :
    List ReturnDataPoint :=
  returns.enum.map (fun ip =>
    if (ip.1 : ℤ) < window - 1 then
      { ip.2 with smaReturnPercent := none }
    else
      let slice := (returns.drop (ip.1 + 1 - window.toNat)).take window.toNat
      let avg := (slice.map (fun p => p.returnPercent)).sum / (window : ℚ)
      { ip.2 with smaReturnPercent := some avg })

/-- `applyFees`: compounding daily fee drag.  The fee multiplier is
`(1 - dailyFeeRate) ^ index`, applied to the gross return. -/
def applyFees (returns : List ReturnDataPoint) (yearlyFeePercent : ℚ) :
    List ReturnDataPoint :=
  if returns.length = 0 ∨ yearlyFeePercent = 0 then returns else
  let dailyFeeRate := yearlyFeePercent / 100 / 365
  returns.enum.map (fun ip =>
    let feeMultiplier := (1 - dailyFeeRate) ^ ip.1
    let grossReturn := 1 + ip.2.returnPercent / 100
    let netReturn := grossReturn * feeMultiplier
    let netReturnPercent := (netReturn - 1) * 100
    { ip.2 with returnPercent := netReturnPercent })

/-- `rebaseReturns`: multiplicative rebase so the point at `rebaseIndex`
becomes 0%.  The source reads `returns[rebaseIndex].returnPercent` first,
which faults when `rebaseIndex` is out of range (in particular `-1`),
modelled as `none`. -/
def rebaseReturns (returns : List ReturnDataPoint) (rebaseIndex : ℤ) :
    Option (List ReturnDataPoint) :=
  (listAt returns rebaseIndex).map (fun basePoint =>
    let baseReturn := basePoint.returnPercent
    let baseFactor := 1 + baseReturn / 100
    returns.map (fun point =>
      let rebased := ((1 + point.returnPercent / 100) / baseFactor - 1) * 100
      let rebasedSMA := point.smaReturnPercent.map
        (fun s => ((1 + s / 100) / baseFactor - 1) * 100)
      { point with returnPercent := rebased, smaReturnPercent := rebasedSMA }))

/-- Body of the `assets.map` callback of `processPortfolioReturns`:
returns, fees (`fees[asset.symbol] || 0` modelled as a total lookup),
optional SMA, warm-up trim and rebase. -/
def processAsset (fees : String → ℚ) (smaWindow : ℤ)
    (asset : PortfolioAsset) : Option PortfolioReturnData :=
  (calculateReturns asset.data 0).bind (fun rawReturns =>
    let feePercent := fees asset.symbol
    let adjustedReturns := applyFees rawReturns feePercent
    if smaWindow ≤ 0 then
      some { symbol := asset.symbol, displayName := asset.displayName
             color := asset.color, returns := adjustedReturns }
    else
      let withSMA := calculateSMA adjustedReturns smaWindow
      let warmupSize : ℤ := min smaWindow ((withSMA.length : ℤ) - 1)
      (rebaseReturns withSMA warmupSize).map (fun rebased =>
        { symbol := asset.symbol, displayName := asset.displayName
          color := asset.color, returns := rebased.drop warmupSize.toNat }))

/-- `processPortfolioReturns`: per-asset pipeline over all assets; a fault in
any asset (a thrown `TypeError` in the source) aborts the whole call. -/
def processPortfolioReturns (assets : List PortfolioAsset)
    (fees : String → ℚ) (smaWindow : ℤ) : Option (List PortfolioReturnData) :=
  assets.mapM (processAsset fees smaWindow)

/-- One row of the merged chart dataset.  The source builds a dynamically
keyed object `{ date, timestamp, ...returns, ...prices, ...sma }`; the three
dynamic key groups are kept as separate association lists (`symbol`,
`symbol_price` and `symbol_sma` keys respectively). -/
structure ChartRow where
  date : String
  timestamp : ℤ
  returnsFields : List (String × ℚ)
  priceFields : List (String × ℚ)
  smaFields : List (String × ℚ)
deriving DecidableEq

/-- State of the four `Map`s built by `mergeReturnsForChart`. -/
structure MergeMaps where
  returnsByDate : List (String × List (String × ℚ))
  pricesByDate : List (String × List (String × ℚ))
  smaByDate : List (String × List (String × ℚ))
  timestampByDate : List (String × ℤ)
deriving DecidableEq

/-- Body of the inner `asset.returns.forEach` of `mergeReturnsForChart`:
initialize the four maps at a fresh date, then record the rounded return,
the raw price and (when present) the rounded SMA under the asset's keys. -/
def mergeStep (sym : String) (maps : MergeMaps) (point : ReturnDataPoint) :
    MergeMaps :=
  let m1 :=
    if (mapGet maps.returnsByDate point.date).isNone then
      { returnsByDate := mapSet maps.returnsByDate point.date []
        pricesByDate := mapSet maps.pricesByDate point.date []
        smaByDate := mapSet maps.smaByDate point.date []
        timestampByDate := mapSet maps.timestampByDate point.date point.timestamp }
    else maps
  let m2 := { m1 with
    returnsByDate := mapSet m1.returnsByDate point.date
      (mapSet ((mapGet m1.returnsByDate point.date).getD []) sym
        (rounded2 point.returnPercent)) }
  let m3 := { m2 with
    pricesByDate := mapSet m2.pricesByDate point.date
      (mapSet ((mapGet m2.pricesByDate point.date).getD []) (sym ++ "_price")
        point.price) }
  match point.smaReturnPercent with
  | none => m3
  | some s => { m3 with
      smaByDate := mapSet m3.smaByDate point.date
        (mapSet ((mapGet m3.smaByDate point.date).getD []) (sym ++ "_sma")
          (rounded2 s)) }

/-- The two nested `forEach` loops of `mergeReturnsForChart`. -/
def buildMergeMaps (portfolioReturns : List PortfolioReturnData) : MergeMaps :=
  portfolioReturns.foldl
    (fun maps asset => asset.returns.foldl (mergeStep asset.symbol) maps)
    ⟨[], [], [], []⟩

/-- `mergeReturnsForChart`: date-keyed merge of all assets' series, keeping
only dates on which every asset has a data point, sorted chronologically by
the recorded timestamp (`timestampByDate.get(d) || 0`). -/
def mergeReturnsForChart (portfolioReturns : List PortfolioReturnData) :
    List ChartRow :=
  if portfolioReturns.length = 0 then [] else
  let maps := buildMergeMaps portfolioReturns
  let allDates := (maps.returnsByDate.map (fun p => p.1)).mergeSort
    (fun a b => decide ((mapGet maps.timestampByDate a).getD 0
      ≤ (mapGet maps.timestampByDate b).getD 0))
  let assetSymbols := portfolioReturns.map (fun a => a.symbol)
  (allDates.filter (fun date =>
    assetSymbols.all (fun symbol =>
      (mapGet ((mapGet maps.returnsByDate date).getD []) symbol).isSome))).map
    (fun date =>
      { date := date
        timestamp := (mapGet maps.timestampByDate date).getD 0
        returnsFields := (mapGet maps.returnsByDate date).getD []
        priceFields := (mapGet maps.pricesByDate date).getD []
        smaFields := (mapGet maps.smaByDate date).getD [] })

/-- `dailyReturns`: day-over-day fractional changes of consecutive points,
`(1+r[i]/100)/(1+r[i-1]/100) - 1`, guarded to `0` when the previous gross
return is not positive. -/
def dailyReturns (returns : List ReturnDataPoint) : List ℚ :=
  (returns.zip (returns.drop 1)).map (fun pq =>
    let prev := 1 + pq.1.returnPercent / 100
    let curr := 1 + pq.2.returnPercent / 100
    if 0 < prev then curr / prev - 1 else 0)

/-- Body of the dateMap-building loop of `calculateCorrelations`: insert the
`i`-th daily return under the date of `returns[i+1]`. -/
def dateMapStep (sym : String)
    (m : List (String × List (String × ℚ))) (entry : ℚ × ReturnDataPoint) :
    List (String × List (String × ℚ)) :=
  let date := entry.2.date
  let m1 := if (mapGet m date).isNone then mapSet m date [] else m
  mapSet m1 date (mapSet ((mapGet m1 date).getD []) sym entry.1)

/-- The `dateMap` of `calculateCorrelations`: date → (symbol → daily
return), built over all assets in order. -/
def ccDateMap (data : List PortfolioReturnData) :
    List (String × List (String × ℚ)) :=
  data.foldl
    (fun m asset =>
      ((dailyReturns asset.returns).zip (asset.returns.drop 1)).foldl
        (dateMapStep asset.symbol) m)
    []

/-- The `symbols` array of `calculateCorrelations`. -/
def ccSymbols (data : List PortfolioReturnData) : List String :=
  data.map (fun a => a.symbol)

/-- The `commonDates` of `calculateCorrelations`: dates at which every
symbol has a daily return. -/
def ccCommonDates (data : List PortfolioReturnData) : List String :=
  ((ccDateMap data).map (fun p => p.1)).filter (fun date =>
    (ccSymbols data).all (fun s =>
      (mapGet ((mapGet (ccDateMap data) date).getD []) s).isSome))

/-- The date-aligned daily-return vector of one symbol
(`alignedReturns.get(s)`); re-setting a duplicated symbol writes the same
recomputed vector, so a per-symbol function is an exact model. -/
def ccAligned (data : List PortfolioReturnData) (s : String) : List ℚ :=
  (ccCommonDates data).map (fun d =>
    (mapGet ((mapGet (ccDateMap data) d).getD []) s).getD 0)

/-- The (population) variance computed inside `stdDev`, kept in `ℚ`;
`0` for the empty vector, matching the source's early return. -/
def varQ (x : List ℚ) : ℚ :=
  if x.length = 0 then 0 else
  let n : ℚ := (x.length : ℚ)
  let mean := x.sum / n
  (x.map (fun v => (v - mean) ^ 2)).sum / n

/-- `stdDev`: square root of the population variance (`0` when empty). -/
noncomputable def stdDev (x : List ℚ) : ℝ :=
  if x.length = 0 then 0 else Real.sqrt ((varQ x : ℚ) : ℝ)

/-- Loop sum `Σ_{i<n} x[i]` of `pearsonCorrelation` (indices past the end
read as `0`; the function is only applied to equal-length vectors). -/
def sampleSum (x : List ℚ) (n : ℕ) : ℚ :=
  ∑ i ∈ Finset.range n, x.getD i 0

/-- Loop sum `Σ_{i<n} x[i]*y[i]` of `pearsonCorrelation`. -/
def sampleSumProd (x y : List ℚ) (n : ℕ) : ℚ :=
  ∑ i ∈ Finset.range n, x.getD i 0 * y.getD i 0

/-- Numerator `n*sumXY - sumX*sumY` of `pearsonCorrelation`. -/
def pearsonNum (x y : List ℚ) : ℚ :=
  (x.length : ℚ) * sampleSumProd x y x.length
    - sampleSum x x.length * sampleSum y x.length

/-- The quantity under the square root of `pearsonCorrelation`'s
denominator: `(n*sumX2 - sumX*sumX) * (n*sumY2 - sumY*sumY)`. -/
def pearsonDen2 (x y : List ℚ) : ℚ :=
  ((x.length : ℚ) * sampleSumProd x x x.length
      - sampleSum x x.length * sampleSum x x.length)
    * ((x.length : ℚ) * sampleSumProd y y x.length
      - sampleSum y x.length * sampleSum y x.length)

/-- `pearsonCorrelation`: `0` for empty vectors, `0` when the denominator
`Math.sqrt(...)` is zero, otherwise the usual quotient. -/
noncomputable def pearsonCorrelation (x y : List ℚ) : ℝ :=
  if x.length = 0 then 0 else
  let denom := Real.sqrt ((pearsonDen2 x y : ℚ) : ℝ)
  if denom = 0 then 0 else ((pearsonNum x y : ℚ) : ℝ) / denom

/-- `CorrelationPair` from `utils/portfolioCalculations.ts`. -/
structure CorrelationPair where
  symbolA : String
  symbolB : String
  nameA : String
  nameB : String
  colorA : String
  colorB : String
  correlation : ℝ
  varianceContribution : ℝ
  varianceA : ℝ
  varianceB : ℝ

/-- The equal weight `w = 1/n` of `calculateCorrelations`. -/
noncomputable def ccWeight (data : List PortfolioReturnData) : ℝ :=
  1 / (data.length : ℝ)

/-- `stds.get(s)` of `calculateCorrelations`. -/
noncomputable def ccStd (data : List PortfolioReturnData) (s : String) : ℝ :=
  stdDev (ccAligned data s)

/-- `assetVariance.get(s) = w * w * sd * sd` of `calculateCorrelations`. -/
noncomputable def ccAssetVariance (data : List PortfolioReturnData)
    (s : String) : ℝ :=
  ccWeight data * ccWeight data * ccStd data s * ccStd data s

/-- The diagonal accumulation of `totalVariance` (one `w^2 var` term per
entry of `symbols`, duplicates included, as in the source loop). -/
noncomputable def ccDiagTotal (data : List PortfolioReturnData) : ℝ :=
  ((ccSymbols data).map (ccAssetVariance data)).sum

/-- `cov = corr * std_a * std_b` for the index pair `(i, j)`. -/
noncomputable def ccCov (data : List PortfolioReturnData) (i j : ℕ) : ℝ :=
  pearsonCorrelation (ccAligned data (data.getD i pdr0).symbol)
      (ccAligned data (data.getD j pdr0).symbol)
    * ccStd data (data.getD i pdr0).symbol
    * ccStd data (data.getD j pdr0).symbol

/-- `pairVariance = 2 * w * w * cov` for the index pair `(i, j)`. -/
noncomputable def ccPairVariance (data : List PortfolioReturnData)
    (i j : ℕ) : ℝ :=
  2 * ccWeight data * ccWeight data * ccCov data i j

/-- The index pairs `(i, j)` with `i < j < n` traversed by the two nested
`for` loops, in loop order. -/
def pairIndexList (n : ℕ) : List (ℕ × ℕ) :=
  (List.range n).flatMap (fun i =>
    ((List.range n).drop (i + 1)).map (fun j => (i, j)))

/-- The fully accumulated `totalVariance`: all diagonal terms plus every
pair's `pairVariance`. -/
noncomputable def ccTotalVariance (data : List PortfolioReturnData) : ℝ :=
  ccDiagTotal data
    + ((pairIndexList data.length).map
        (fun ij => ccPairVariance data ij.1 ij.2)).sum

/-- The pair record pushed for indices `(i, j)`, before normalization. -/
noncomputable def ccRawPair (data : List PortfolioReturnData) (i j : ℕ) :
    CorrelationPair :=
  let a := data.getD i pdr0
  let b := data.getD j pdr0
  { symbolA := a.symbol, symbolB := b.symbol
    nameA := a.displayName, nameB := b.displayName
    colorA := a.color, colorB := b.color
    correlation := pearsonCorrelation (ccAligned data a.symbol)
      (ccAligned data b.symbol)
    varianceContribution := ccPairVariance data i j
    varianceA := ccAssetVariance data a.symbol
    varianceB := ccAssetVariance data b.symbol }

/-- The `if (totalVariance > 0)` normalization pass over one pair. -/
noncomputable def ccNormalize (data : List PortfolioReturnData)
    (p : CorrelationPair) : CorrelationPair :=
  if 0 < ccTotalVariance data then
    { p with
      varianceContribution := p.varianceContribution / ccTotalVariance data * 100
      varianceA := p.varianceA / ccTotalVariance data * 100
      varianceB := p.varianceB / ccTotalVariance data * 100 }
  else p

/-- `calculateCorrelations`: empty below 2 assets, otherwise the normalized
pairs sorted by descending absolute correlation
(comparator `|b.corr| - |a.corr|`). -/
noncomputable def calculateCorrelations (data : List PortfolioReturnData) :
    List CorrelationPair :=
  if data.length < 2 then [] else
  (((pairIndexList data.length).map
      (fun ij => ccRawPair data ij.1 ij.2)).map (ccNormalize data)).mergeSort
    (fun p q => decide (|q.correlation| ≤ |p.correlation|))

/-! Generic helper lemmas about the list/association-list primitives. -/

theorem getD_map_of_lt {α β : Type} (f : α → β)
    (l : List α) (i : ℕ) (d : β) (d' : α) (hi : i < l.length) :
    (l.map f).getD i d = f (l.getD i d') := by
  rw [List.getD_eq_getElem?_getD, List.getD_eq_getElem?_getD,
    List.getElem?_map, List.getElem?_eq_getElem hi]
  rfl

theorem length_enum_map {α β : Type} (f : ℕ × α → β) (l : List α) :
    (l.enum.map f).length = l.length := by
  rw [List.length_map, List.enum_length]

theorem getD_enum_map_of_lt {α β : Type} (f : ℕ × α → β) (l : List α)
    (i : ℕ) (d : β) (d' : α) (hi : i < l.length) :
    (l.enum.map f).getD i d = f (i, l.getD i d') := by
  rw [List.getD_eq_getElem?_getD, List.getD_eq_getElem?_getD,
    List.getElem?_map, List.getElem?_enum, List.getElem?_eq_getElem hi]
  rfl

theorem foldl_preserves {α β : Type} {P : β → Prop} (f : β → α → β)
    (l : List α) (b : β) (hb : P b)
    (hf : ∀ b' a, P b' → a ∈ l → P (f b' a)) : P (l.foldl f b) := by
  induction l generalizing b with
  | nil => exact hb
  | cons a t ih =>
    exact ih (f b a) (hf b a hb (List.mem_cons_self a t))
      (fun b' a' h ha' => hf b' a' h (List.mem_cons_of_mem a ha'))

theorem find?_update_other {α : Type} {k k' : String} (v : α)
    (h : k' ≠ k) (t : List (String × α)) :
    List.find? (fun q => q.1 == k')
        (t.map (fun q => if q.1 = k then (k, v) else q))
      = List.find? (fun q => q.1 == k') t := by
  induction t with
  | nil => rfl
  | cons q t ih =>
    by_cases hq : q.1 = k
    · have h1 : (k == k') = false := by simp [Ne.symm h]
      have h2 : (q.1 == k') = false := by simp [hq, Ne.symm h]
      simp [List.map_cons, if_pos hq, List.find?, h1, h2, ih]
    · simp only [List.map_cons, if_neg hq]
      cases hq2 : (q.1 == k') with
      | true => simp [List.find?, hq2]
      | false => simp [List.find?, hq2, ih]

theorem find?_update_self {α : Type} {k : String} (v : α)
    (t : List (String × α)) :
    List.find? (fun q => q.1 == k)
        (t.map (fun q => if q.1 = k then (k, v) else q))
      = if t.any (fun q => q.1 == k) then some (k, v) else none := by
  induction t with
  | nil => rfl
  | cons q t ih =>
    by_cases hq : q.1 = k
    · simp only [List.map_cons, if_pos hq, List.any_cons, hq, beq_self_eq_true,
        Bool.true_or, if_true]
      simp [List.find?]
    · have hqb : (q.1 == k) = false := by simp [hq]
      simp only [List.map_cons, if_neg hq, List.any_cons, hqb, Bool.false_or,
        List.find?, ih]

theorem mapGet_mapSet {α : Type} (m : List (String × α)) (k k' : String)
    (v : α) :
    mapGet (mapSet m k v) k' = if k' = k then some v else mapGet m k' := by
  unfold mapSet mapGet
  by_cases hany : m.any (fun p => p.1 == k)
  · simp only [hany, if_true]
    by_cases h : k' = k
    · subst h
      rw [find?_update_self, if_pos hany]
      simp
    · rw [find?_update_other v h]
      simp [h]
  · simp only [hany, Bool.false_eq_true, if_false, List.find?_append]
    have hnone : List.find? (fun p => p.1 == k) m = none := by
      rw [List.find?_eq_none]
      intro x hx hxk
      exact hany (List.any_eq_true.mpr ⟨x, hx, hxk⟩)
    by_cases h : k' = k
    · subst h
      rw [hnone]
      simp [List.find?]
    · have h1 : ((k, v).1 == k') = false := by simp [Ne.symm h]
      cases hf : List.find? (fun p => p.1 == k') m with
      | some p => simp [hf, h]
      | none => simp [hf, List.find?, h1, h]

theorem mem_mapSet {α : Type} {m : List (String × α)} {k : String} {v : α}
    {x : String × α} (hx : x ∈ mapSet m k v) : x = (k, v) ∨ x ∈ m := by
  unfold mapSet at hx
  by_cases hany : m.any (fun p => p.1 == k)
  · simp only [hany, if_true] at hx
    obtain ⟨p, hp, hfp⟩ := List.mem_map.mp hx
    by_cases hpk : p.1 = k
    · left; rw [if_pos hpk] at hfp; exact hfp.symm
    · right; rw [if_neg hpk] at hfp; rw [← hfp]; exact hp
  · simp only [hany, Bool.false_eq_true, if_false, List.mem_append,
      List.mem_singleton] at hx
    rcases hx with h | h
    · right; exact h
    · left; exact h

theorem mem_of_mapGet_eq_some {α : Type} {m : List (String × α)}
    {k : String} {v : α} (h : mapGet m k = some v) : (k, v) ∈ m := by
  unfold mapGet at h
  obtain ⟨p, hfind, hv⟩ := Option.map_eq_some'.mp h
  have hmem := List.mem_of_find?_eq_some hfind
  have hk := List.find?_some hfind
  have : p.1 = k := by simpa using hk
  have : p = (k, v) := by
    cases p; simp_all
  rw [← this]; exact hmem

/-! Claim C1: the empty-series/SMA fault. -/

/-- The concrete failing input of claim C1: an asset whose price series is
empty. -/
def emptyAsset : PortfolioAsset := ⟨"BTC", "Bitcoin", "#f7931a", []⟩

/-- C1: the spec says no core component throws for well-formed input and in
particular that `processPortfolioReturns` with `smaWindow ≥ 1` on an asset
with an empty price series returns an entry with empty returns.  The code
instead evaluates `rebaseReturns([], Math.min(1, -1))`, which reads
`[][-1].returnPercent` and throws a `TypeError`; in the embedding the call
returns `none` (a fault) rather than an entry with empty returns. -/
theorem processPortfolioReturns_empty_series_faults :
    processPortfolioReturns [emptyAsset] (fun _ => 0) 1 = none := by
  rfl

/-! Claim C4: correctness of `calculateReturns`. -/

/-- C4: for a valid `startIndex` into a positive price series,
`calculateReturns` succeeds and returns a same-length series whose `i`-th
point carries the input's date, timestamp and price and has
`returnPercent = (price[i] - price[startIndex]) / price[startIndex] * 100`;
the point at `startIndex` is exactly 0 and empty input yields empty
output. -/
theorem calculateReturns_correct (priceData : List NormalizedPriceData)
    (startIndex : ℕ) (hidx : startIndex < priceData.length)
    (hpos : ∀ p ∈ priceData, 0 < p.price) :
    ∃ out, calculateReturns priceData startIndex = some out ∧
      out.length = priceData.length ∧
      (∀ i : ℕ, out[i]? = (priceData[i]?).map (fun p =>
        ⟨p.date, p.timestamp,
          (p.price - (priceData.getD startIndex npd0).price)
            / (priceData.getD startIndex npd0).price * 100, p.price, none⟩)) ∧
      (out.getD startIndex rdp0).returnPercent = 0 ∧
      calculateReturns [] startIndex = some [] := by
  have hne : priceData.length ≠ 0 := Nat.not_eq_zero_of_lt hidx
  have hsome : priceData[startIndex]? = some (priceData.getD startIndex npd0) := by
    rw [List.getElem?_eq_getElem hidx, List.getD_eq_getElem?_getD,
      List.getElem?_eq_getElem hidx]
    rfl
  have hcr : calculateReturns priceData startIndex
      = some (priceData.map (fun p =>
        ⟨p.date, p.timestamp,
          (p.price - (priceData.getD startIndex npd0).price)
            / (priceData.getD startIndex npd0).price * 100, p.price, none⟩)) := by
    unfold calculateReturns
    rw [if_neg hne, hsome]
  refine ⟨_, hcr, List.length_map _ _, ?_, ?_, rfl⟩
  · intro i
    rw [List.getElem?_map]
  · rw [getD_map_of_lt _ _ _ _ npd0 hidx]
    simp

theorem getD_mem_of_lt {α : Type} (l : List α) (i : ℕ) (d : α)
    (hi : i < l.length) : l.getD i d ∈ l := by
  rw [List.getD_eq_getElem?_getD, List.getElem?_eq_getElem hi]
  exact List.getElem_mem hi

/-- Concrete two-point price series used to instantiate claim C4. -/
def wPriceData : List NormalizedPriceData :=
  [⟨"2024-01-01", 1000, 4⟩, ⟨"2024-01-02", 2000, 5⟩]

/-- C4 witness: `calculateReturns_correct` applied to a concrete series. -/
theorem calculateReturns_correct_witness :
    ∃ out, calculateReturns wPriceData 0 = some out ∧
      out.length = wPriceData.length ∧
      (∀ i : ℕ, out[i]? = (wPriceData[i]?).map (fun p =>
        ⟨p.date, p.timestamp,
          (p.price - (wPriceData.getD 0 npd0).price)
            / (wPriceData.getD 0 npd0).price * 100, p.price, none⟩)) ∧
      (out.getD 0 rdp0).returnPercent = 0 ∧
      calculateReturns [] 0 = some [] :=
  calculateReturns_correct wPriceData 0 (by decide) (by decide)

/-! Claim C2: `rebaseReturns` preserves return ratios and zeroes the
anchor. -/

theorem div_div_cancel_common {a b c : ℚ} (hc : c ≠ 0) :
    (a / c) / (b / c) = a / b := by
  rcases eq_or_ne b 0 with hb | hb
  · subst hb; simp
  · field_simp

/-- C2: for a valid `rebaseIndex` whose base factor
`1 + returnPercent/100` is nonzero, `rebaseReturns` succeeds, keeps the
length, zeroes the anchor point, and preserves the gross-return ratio
`(1+r_x/100)/(1+r_y/100)` of every two points, for `returnPercent` and for
every pair of defined `smaReturnPercent` values. -/
theorem rebaseReturns_preserves_ratios (returns : List ReturnDataPoint)
    (rebaseIndex : ℕ) (hidx : rebaseIndex < returns.length)
    (hbf : 1 + (returns.getD rebaseIndex rdp0).returnPercent / 100 ≠ 0) :
    ∃ out, rebaseReturns returns (rebaseIndex : ℤ) = some out ∧
      out.length = returns.length ∧
      (out.getD rebaseIndex rdp0).returnPercent = 0 ∧
      (∀ x y : ℕ, x < returns.length → y < returns.length →
        (1 + (out.getD x rdp0).returnPercent / 100)
            / (1 + (out.getD y rdp0).returnPercent / 100)
          = (1 + (returns.getD x rdp0).returnPercent / 100)
            / (1 + (returns.getD y rdp0).returnPercent / 100)) ∧
      (∀ x y : ℕ, x < returns.length → y < returns.length →
        ∀ sx sy : ℚ, (returns.getD x rdp0).smaReturnPercent = some sx →
          (returns.getD y rdp0).smaReturnPercent = some sy →
          ∃ tx ty : ℚ, (out.getD x rdp0).smaReturnPercent = some tx ∧
            (out.getD y rdp0).smaReturnPercent = some ty ∧
            (1 + tx / 100) / (1 + ty / 100)
              = (1 + sx / 100) / (1 + sy / 100)) := by
  have hsome : listAt returns (rebaseIndex : ℤ)
      = some (returns.getD rebaseIndex rdp0) := by
    unfold listAt
    rw [if_pos (Int.natCast_nonneg rebaseIndex), Int.toNat_natCast,
      List.getElem?_eq_getElem hidx, List.getD_eq_getElem?_getD,
      List.getElem?_eq_getElem hidx]
    rfl
  set base := returns.getD rebaseIndex rdp0 with hbase
  set bf := 1 + base.returnPercent / 100 with hbfdef
  have hout : rebaseReturns returns (rebaseIndex : ℤ)
      = some (returns.map (fun point =>
        { point with
          returnPercent := ((1 + point.returnPercent / 100) / bf - 1) * 100
          smaReturnPercent := point.smaReturnPercent.map
            (fun s => ((1 + s / 100) / bf - 1) * 100) })) := by
    unfold rebaseReturns
    rw [hsome]
    rfl
  have hget : ∀ x : ℕ, x < returns.length →
      (returns.map (fun point =>
        { point with
          returnPercent := ((1 + point.returnPercent / 100) / bf - 1) * 100
          smaReturnPercent := point.smaReturnPercent.map
            (fun s => ((1 + s / 100) / bf - 1) * 100) })).getD x rdp0
      = { returns.getD x rdp0 with
          returnPercent :=
            ((1 + (returns.getD x rdp0).returnPercent / 100) / bf - 1) * 100
          smaReturnPercent := (returns.getD x rdp0).smaReturnPercent.map
            (fun s => ((1 + s / 100) / bf - 1) * 100) } := by
    intro x hx
    exact getD_map_of_lt _ _ _ _ rdp0 hx
  refine ⟨_, hout, List.length_map _ _, ?_, ?_, ?_⟩
  · rw [hget rebaseIndex hidx]
    show ((1 + base.returnPercent / 100) / bf - 1) * 100 = 0
    rw [← hbfdef, div_self hbf]
    ring
  · intro x y hx hy
    rw [hget x hx, hget y hy]
    show (1 + ((1 + (returns.getD x rdp0).returnPercent / 100) / bf - 1) * 100 / 100)
        / (1 + ((1 + (returns.getD y rdp0).returnPercent / 100) / bf - 1) * 100 / 100)
      = _
    have hx1 : 1 + ((1 + (returns.getD x rdp0).returnPercent / 100) / bf - 1) * 100 / 100
        = (1 + (returns.getD x rdp0).returnPercent / 100) / bf := by ring
    have hy1 : 1 + ((1 + (returns.getD y rdp0).returnPercent / 100) / bf - 1) * 100 / 100
        = (1 + (returns.getD y rdp0).returnPercent / 100) / bf := by ring
    rw [hx1, hy1, div_div_cancel_common hbf]
  · intro x y hx hy sx sy hsx hsy
    refine ⟨((1 + sx / 100) / bf - 1) * 100, ((1 + sy / 100) / bf - 1) * 100,
      ?_, ?_, ?_⟩
    · rw [hget x hx]
      show ((returns.getD x rdp0).smaReturnPercent.map
        (fun s => ((1 + s / 100) / bf - 1) * 100)) = _
      rw [hsx]
      rfl
    · rw [hget y hy]
      show ((returns.getD y rdp0).smaReturnPercent.map
        (fun s => ((1 + s / 100) / bf - 1) * 100)) = _
      rw [hsy]
      rfl
    · have hx1 : 1 + ((1 + sx / 100) / bf - 1) * 100 / 100
          = (1 + sx / 100) / bf := by ring
      have hy1 : 1 + ((1 + sy / 100) / bf - 1) * 100 / 100
          = (1 + sy / 100) / bf := by ring
      rw [hx1, hy1, div_div_cancel_common hbf]

/-- Concrete two-point return series used to instantiate claim C2. -/
def wRebase : List ReturnDataPoint :=
  [⟨"d1", 1, 10, 110, some 5⟩, ⟨"d2", 2, 21, 121, some 8⟩]

/-- C2 witness: `rebaseReturns_preserves_ratios` at a concrete series and
anchor index 1. -/
theorem rebaseReturns_preserves_ratios_witness :
    ∃ out, rebaseReturns wRebase ((1 : ℕ) : ℤ) = some out ∧
      out.length = wRebase.length ∧
      (out.getD 1 rdp0).returnPercent = 0 ∧
      (∀ x y : ℕ, x < wRebase.length → y < wRebase.length →
        (1 + (out.getD x rdp0).returnPercent / 100)
            / (1 + (out.getD y rdp0).returnPercent / 100)
          = (1 + (wRebase.getD x rdp0).returnPercent / 100)
            / (1 + (wRebase.getD y rdp0).returnPercent / 100)) ∧
      (∀ x y : ℕ, x < wRebase.length → y < wRebase.length →
        ∀ sx sy : ℚ, (wRebase.getD x rdp0).smaReturnPercent = some sx →
          (wRebase.getD y rdp0).smaReturnPercent = some sy →
          ∃ tx ty : ℚ, (out.getD x rdp0).smaReturnPercent = some tx ∧
            (out.getD y rdp0).smaReturnPercent = some ty ∧
            (1 + tx / 100) / (1 + ty / 100)
              = (1 + sx / 100) / (1 + sy / 100)) :=
  rebaseReturns_preserves_ratios wRebase 1 (by decide)
    (by norm_num [wRebase, List.getD])

/-! Claim C5: fee monotonicity. -/

/-- Concrete flat return series (derived from constant positive prices)
used for claim C5. -/
def feeReturns : List ReturnDataPoint :=
  [⟨"d1", 1, 0, 1, none⟩, ⟨"d2", 2, 0, 1, none⟩, ⟨"d3", 3, 0, 1, none⟩]

/-- C5 counterexample: the claim quantifies over every
`yearlyFeePercent > 0`, but for `yearlyFeePercent = 109500` the daily fee
rate is `3`, the day-2 fee multiplier is `(1-3)^2 = 4 > 1`, and the
fee-adjusted return (300%) exceeds the unadjusted return (0%). -/
theorem applyFees_monotonicity_cex :
    ¬ (((applyFees feeReturns 109500).getD 2 rdp0).returnPercent
        ≤ (feeReturns.getD 2 rdp0).returnPercent) := by
  norm_num [applyFees, feeReturns, List.enum, List.enumFrom, List.getD, rdp0]

/-- C5 (amended): fee monotonicity holds for every `0 < yearlyFeePercent`
whose daily rate is below 2, i.e. `yearlyFeePercent < 73000` (the
counterexample shows the bound is needed): each fee-adjusted return is ≤
the unadjusted one, strictly after index 0. -/
theorem applyFees_monotone (returns : List ReturnDataPoint)
    (yearlyFeePercent : ℚ)
    (hg : ∀ p ∈ returns, 0 < 1 + p.returnPercent / 100)
    (hf0 : 0 < yearlyFeePercent) (hf1 : yearlyFeePercent < 73000) :
    ∀ i : ℕ, i < returns.length →
      ((applyFees returns yearlyFeePercent).getD i rdp0).returnPercent
          ≤ (returns.getD i rdp0).returnPercent
        ∧ (1 ≤ i →
          ((applyFees returns yearlyFeePercent).getD i rdp0).returnPercent
            < (returns.getD i rdp0).returnPercent) := by
  intro i hi
  have hguard : ¬(returns.length = 0 ∨ yearlyFeePercent = 0) := by
    push_neg
    exact ⟨Nat.not_eq_zero_of_lt hi, ne_of_gt hf0⟩
  have hgp : 0 < 1 + (returns.getD i rdp0).returnPercent / 100 :=
    hg _ (getD_mem_of_lt returns i rdp0 hi)
  unfold applyFees
  rw [if_neg hguard, getD_enum_map_of_lt _ _ _ _ rdp0 hi]
  set p := returns.getD i rdp0
  set g := 1 + p.returnPercent / 100 with hgdef
  set m := 1 - yearlyFeePercent / 100 / 365 with hmdef
  have hrate0 : 0 < yearlyFeePercent / 100 / 365 := by positivity
  have hrate2 : yearlyFeePercent / 100 / 365 < 2 := by
    rw [div_div, div_lt_iff (by norm_num : (0:ℚ) < 100 * 365)]
    linarith
  have habs : |m| < 1 := by
    rw [abs_lt]
    constructor <;> [skip; skip] <;> rw [hmdef] <;> linarith
  have hpow_le : ∀ j : ℕ, m ^ j ≤ 1 := by
    intro j
    calc m ^ j ≤ |m ^ j| := le_abs_self _
    _ = |m| ^ j := abs_pow m j
    _ ≤ 1 := pow_le_one₀ (abs_nonneg m) (le_of_lt habs)
  have hpow_lt : 1 ≤ i → m ^ i < 1 := by
    intro h1
    calc m ^ i ≤ |m ^ i| := le_abs_self _
    _ = |m| ^ i := abs_pow m i
    _ ≤ |m| ^ 1 := pow_le_pow_of_le_one (abs_nonneg m) (le_of_lt habs) h1
    _ = |m| := pow_one _
    _ < 1 := habs
  have hr : p.returnPercent = (g - 1) * 100 := by
    rw [hgdef]; ring
  constructor
  · have := mul_le_mul_of_nonneg_left (hpow_le i) (le_of_lt hgp)
    show (g * m ^ i - 1) * 100 ≤ p.returnPercent
    rw [hr]
    nlinarith
  · intro h1
    have := mul_lt_mul_of_pos_left (hpow_lt h1) hgp
    show (g * m ^ i - 1) * 100 < p.returnPercent
    rw [hr]
    nlinarith

/-- C5 witness: `applyFees_monotone` at the concrete flat series with a
10%-per-year fee. -/
theorem applyFees_monotone_witness :
    ((applyFees feeReturns 10).getD 1 rdp0).returnPercent
        ≤ (feeReturns.getD 1 rdp0).returnPercent
      ∧ (1 ≤ 1 →
        ((applyFees feeReturns 10).getD 1 rdp0).returnPercent
          < (feeReturns.getD 1 rdp0).returnPercent) :=
  applyFees_monotone feeReturns 10
    (by intro p hp; fin_cases hp <;> norm_num)
    (by norm_num) (by norm_num) 1 (by decide)

/-! Claim C6: warm-up trim and rebase of `processPortfolioReturns`. -/

theorem applyFees_zero (returns : List ReturnDataPoint) :
    applyFees returns 0 = returns := by
  unfold applyFees
  simp

theorem applyFees_length (returns : List ReturnDataPoint) (fee : ℚ) :
    (applyFees returns fee).length = returns.length := by
  unfold applyFees
  split
  · rfl
  · exact length_enum_map _ _

theorem applyFees_getD_of_ne (returns : List ReturnDataPoint) (fee : ℚ)
    (hfee : fee ≠ 0) (i : ℕ) (hi : i < returns.length) :
    (applyFees returns fee).getD i rdp0
      = { returns.getD i rdp0 with
          returnPercent := ((1 + (returns.getD i rdp0).returnPercent / 100)
            * (1 - fee / 100 / 365) ^ i - 1) * 100 } := by
  unfold applyFees
  rw [if_neg (by push_neg; exact ⟨Nat.not_eq_zero_of_lt hi, hfee⟩),
    getD_enum_map_of_lt _ _ _ _ rdp0 hi]

theorem calculateSMA_length (returns : List ReturnDataPoint) (w : ℤ) :
    (calculateSMA returns w).length = returns.length :=
  length_enum_map _ _

theorem calculateSMA_getD_returnPercent (returns : List ReturnDataPoint)
    (w : ℤ) (i : ℕ) (hi : i < returns.length) :
    ((calculateSMA returns w).getD i rdp0).returnPercent
      = (returns.getD i rdp0).returnPercent := by
  unfold calculateSMA
  rw [getD_enum_map_of_lt _ _ _ _ rdp0 hi]
  split <;> rfl

theorem calculateReturns_eq_map (priceData : List NormalizedPriceData)
    (h : priceData ≠ []) :
    calculateReturns priceData 0 = some (priceData.map (fun p =>
      ⟨p.date, p.timestamp,
        (p.price - (priceData.getD 0 npd0).price)
          / (priceData.getD 0 npd0).price * 100, p.price, none⟩)) := by
  have hlen : 0 < priceData.length := List.length_pos.mpr h
  have hsome : priceData[0]? = some (priceData.getD 0 npd0) := by
    rw [List.getElem?_eq_getElem hlen, List.getD_eq_getElem?_getD,
      List.getElem?_eq_getElem hlen]
    rfl
  unfold calculateReturns
  rw [if_neg (Nat.not_eq_zero_of_lt hlen), hsome]

theorem rebaseReturns_eq_map (returns : List ReturnDataPoint) (k : ℕ)
    (hk : k < returns.length) :
    rebaseReturns returns (k : ℤ) = some (returns.map (fun point =>
      { point with
        returnPercent := ((1 + point.returnPercent / 100)
          / (1 + (returns.getD k rdp0).returnPercent / 100) - 1) * 100
        smaReturnPercent := point.smaReturnPercent.map
          (fun s => ((1 + s / 100)
            / (1 + (returns.getD k rdp0).returnPercent / 100) - 1) * 100) })) := by
  have hsome : listAt returns (k : ℤ) = some (returns.getD k rdp0) := by
    unfold listAt
    rw [if_pos (Int.natCast_nonneg k), Int.toNat_natCast,
      List.getElem?_eq_getElem hk, List.getD_eq_getElem?_getD,
      List.getElem?_eq_getElem hk]
    rfl
  unfold rebaseReturns
  rw [hsome]
  rfl

/-- C6 (amended): for a non-empty positive price series, `smaWindow ≥ 1`,
and a fee other than the degenerate 36500%/year (whose daily rate 1 zeroes
every gross return and hence the rebase base factor — the counterexample
shows the exclusion is needed), `processPortfolioReturns` computes returns,
fees and SMA over the entire series, drops exactly the leading
`min(smaWindow, length-1)` points, and the first visible point has
`returnPercent` exactly 0. -/
theorem processPortfolioReturns_trim (asset : PortfolioAsset)
    (fees : String → ℚ) (smaWindow : ℤ) (hw : 1 ≤ smaWindow)
    (hne : asset.data ≠ []) (hpos : ∀ p ∈ asset.data, 0 < p.price)
    (hfee : fees asset.symbol ≠ 36500) :
    ∃ raw full,
      calculateReturns asset.data 0 = some raw ∧
      rebaseReturns (calculateSMA (applyFees raw (fees asset.symbol)) smaWindow)
          (min smaWindow ((asset.data.length : ℤ) - 1)) = some full ∧
      processPortfolioReturns [asset] fees smaWindow
        = some [⟨asset.symbol, asset.displayName, asset.color,
            full.drop (min smaWindow ((asset.data.length : ℤ) - 1)).toNat⟩] ∧
      (full.drop (min smaWindow ((asset.data.length : ℤ) - 1)).toNat).length
        = asset.data.length
          - (min smaWindow ((asset.data.length : ℤ) - 1)).toNat ∧
      ((full.drop (min smaWindow ((asset.data.length : ℤ) - 1)).toNat).getD 0
          rdp0).returnPercent = 0 := by
  set fee := fees asset.symbol with hfeedef
  set n := asset.data.length with hndef
  have hn : 0 < n := List.length_pos.mpr hne
  have hn1 : (1 : ℤ) ≤ (n : ℤ) := by exact_mod_cast hn
  set wm : ℤ := min smaWindow ((n : ℤ) - 1) with hwmdef
  have hwm0 : 0 ≤ wm := le_min (by linarith) (by linarith)
  set k := wm.toNat with hkdef
  have hkwm : (k : ℤ) = wm := Int.toNat_of_nonneg hwm0
  have hkn : k < n := by
    have h1 : wm ≤ (n : ℤ) - 1 := min_le_right _ _
    have h2 : (k : ℤ) < (n : ℤ) := by rw [hkwm]; linarith
    exact_mod_cast h2
  -- the raw return series
  have hraw := calculateReturns_eq_map asset.data hne
  set p0 := asset.data.getD 0 npd0 with hp0def
  set raw := asset.data.map (fun p =>
    (⟨p.date, p.timestamp, (p.price - p0.price) / p0.price * 100,
      p.price, none⟩ : ReturnDataPoint)) with hrawdef
  have hrawlen : raw.length = n := List.length_map _ _
  have hp0pos : 0 < p0.price := hpos _ (getD_mem_of_lt _ _ _ hn)
  set pk := asset.data.getD k npd0 with hpkdef
  have hpkpos : 0 < pk.price := hpos _ (getD_mem_of_lt _ _ _ hkn)
  have hrawk : raw.getD k rdp0
      = ⟨pk.date, pk.timestamp, (pk.price - p0.price) / p0.price * 100,
        pk.price, none⟩ := getD_map_of_lt _ _ _ _ npd0 hkn
  -- gross return at the anchor is the positive price ratio
  have hgross : 1 + (raw.getD k rdp0).returnPercent / 100 = pk.price / p0.price := by
    rw [hrawk]
    show 1 + (pk.price - p0.price) / p0.price * 100 / 100 = pk.price / p0.price
    field_simp
    ring
  have hgrossne : 1 + (raw.getD k rdp0).returnPercent / 100 ≠ 0 := by
    rw [hgross]
    exact ne_of_gt (div_pos hpkpos hp0pos)
  -- the adjusted series and its anchor gross return
  set adjusted := applyFees raw fee with hadjdef
  have hadjlen : adjusted.length = n := by rw [hadjdef, applyFees_length, hrawlen]
  have hkadj : k < adjusted.length := by rw [hadjlen]; exact hkn
  have hadjne : 1 + (adjusted.getD k rdp0).returnPercent / 100 ≠ 0 := by
    by_cases hf0 : fee = 0
    · rw [hadjdef, hf0, applyFees_zero]
      exact hgrossne
    · have hm : (1 : ℚ) - fee / 100 / 365 ≠ 0 := by
        intro h
        apply hfee
        have h1 : fee / 100 / 365 = 1 := by linarith
        field_simp at h1
        linarith
      rw [hadjdef, applyFees_getD_of_ne raw fee hf0 k (by rw [hrawlen]; exact hkn)]
      show 1 + ((1 + (raw.getD k rdp0).returnPercent / 100)
        * (1 - fee / 100 / 365) ^ k - 1) * 100 / 100 ≠ 0
      have heq : 1 + ((1 + (raw.getD k rdp0).returnPercent / 100)
          * (1 - fee / 100 / 365) ^ k - 1) * 100 / 100
          = (1 + (raw.getD k rdp0).returnPercent / 100)
            * (1 - fee / 100 / 365) ^ k := by ring
      rw [heq]
      exact mul_ne_zero hgrossne (pow_ne_zero k hm)
  -- the SMA-augmented series and its anchor
  set withSMA := calculateSMA adjusted smaWindow with hsmadef
  have hsmalen : withSMA.length = n := by rw [hsmadef, calculateSMA_length, hadjlen]
  have hksma : k < withSMA.length := by rw [hsmalen]; exact hkn
  have hbf : 1 + (withSMA.getD k rdp0).returnPercent / 100 ≠ 0 := by
    rw [hsmadef, calculateSMA_getD_returnPercent adjusted smaWindow k hkadj]
    exact hadjne
  -- the rebased series
  have hreb := rebaseReturns_eq_map withSMA k hksma
  set bf := 1 + (withSMA.getD k rdp0).returnPercent / 100 with hbfdef
  set full := withSMA.map (fun point =>
    { point with
      returnPercent := ((1 + point.returnPercent / 100) / bf - 1) * 100
      smaReturnPercent := point.smaReturnPercent.map
        (fun s => ((1 + s / 100) / bf - 1) * 100) }) with hfulldef
  have hfulllen : full.length = n := by
    rw [hfulldef, List.length_map, hsmalen]
  have hkfull : k < full.length := by rw [hfulllen]; exact hkn
  have hwmk : wm = (k : ℤ) := hkwm.symm
  have hrebwm : rebaseReturns withSMA wm = some full := by
    rw [hwmk]
    exact hreb
  refine ⟨raw, full, hraw, hrebwm, ?_, ?_, ?_⟩
  · show processPortfolioReturns [asset] fees smaWindow = _
    unfold processPortfolioReturns
    rw [List.mapM_cons, List.mapM_nil]
    have hpa : processAsset fees smaWindow asset
        = some ⟨asset.symbol, asset.displayName, asset.color,
            full.drop wm.toNat⟩ := by
      unfold processAsset
      rw [hraw, Option.some_bind]
      simp only [if_neg (show ¬ smaWindow ≤ 0 by omega)]
      rw [← hfeedef, ← hadjdef, ← hsmadef, hsmalen, ← hwmdef, hrebwm]
      rfl
    rw [hpa]
    rfl
  · rw [List.length_drop, hfulllen]
  · rw [List.getD_eq_getElem?_getD, List.getElem?_drop, Nat.add_zero,
      List.getElem?_eq_getElem hkfull, Option.getD_some]
    have hfk : full[k] = full.getD k rdp0 := by
      rw [List.getD_eq_getElem?_getD, List.getElem?_eq_getElem hkfull]
      rfl
    rw [hfk]
    have : full.getD k rdp0
        = { withSMA.getD k rdp0 with
            returnPercent := ((1 + (withSMA.getD k rdp0).returnPercent / 100) / bf - 1) * 100
            smaReturnPercent := (withSMA.getD k rdp0).smaReturnPercent.map
              (fun s => ((1 + s / 100) / bf - 1) * 100) } := by
      rw [hfulldef]
      exact getD_map_of_lt _ _ _ _ rdp0 hksma
    rw [this]
    show ((1 + (withSMA.getD k rdp0).returnPercent / 100) / bf - 1) * 100 = 0
    rw [← hbfdef, div_self hbf]
    ring

/-- Concrete asset with two equal positive prices, used for claim C6. -/
def c6Asset : PortfolioAsset := ⟨"F", "Fee", "c", [⟨"d1", 1, 1⟩, ⟨"d2", 2, 1⟩]⟩

/-- C6 counterexample: with the degenerate fee 36500%/year (daily rate 1)
the anchor's fee-adjusted gross return is 0, the rebase base factor is 0,
and the first visible point is not 0% (`-100` in the embedding, `NaN` in
JavaScript), refuting the claim as stated for arbitrary fee maps. -/
theorem processPortfolioReturns_trim_cex :
    ∃ out, processPortfolioReturns [c6Asset] (fun _ => 36500) 1 = some [out] ∧
      ¬ ((out.returns.getD 0 rdp0).returnPercent = 0) := by
  refine ⟨⟨"F", "Fee", "c", [⟨"d2", 2, -100, 1, some (-100)⟩]⟩, ?_, by norm_num [rdp0]⟩
  have h1 : processAsset (fun _ : String => 36500) 1 c6Asset
      = some ⟨"F", "Fee", "c", [⟨"d2", 2, -100, 1, some (-100)⟩]⟩ := by
    norm_num +decide [processAsset, calculateReturns, applyFees, calculateSMA,
      rebaseReturns, listAt, c6Asset, List.enum, List.enumFrom, rdp0, npd0,
      min_def]
  unfold processPortfolioReturns
  rw [List.mapM_cons, h1, List.mapM_nil]
  rfl

/-- C6 witness: `processPortfolioReturns_trim` at the concrete two-point
asset, a 10%/year fee and `smaWindow = 1`. -/
theorem processPortfolioReturns_trim_witness :
    ∃ raw full,
      calculateReturns c6Asset.data 0 = some raw ∧
      rebaseReturns (calculateSMA (applyFees raw ((fun _ : String => (10 : ℚ)) c6Asset.symbol)) 1)
          (min 1 ((c6Asset.data.length : ℤ) - 1)) = some full ∧
      processPortfolioReturns [c6Asset] (fun _ : String => (10 : ℚ)) 1
        = some [⟨c6Asset.symbol, c6Asset.displayName, c6Asset.color,
            full.drop (min 1 ((c6Asset.data.length : ℤ) - 1)).toNat⟩] ∧
      (full.drop (min 1 ((c6Asset.data.length : ℤ) - 1)).toNat).length
        = c6Asset.data.length
          - (min 1 ((c6Asset.data.length : ℤ) - 1)).toNat ∧
      ((full.drop (min 1 ((c6Asset.data.length : ℤ) - 1)).toNat).getD 0
          rdp0).returnPercent = 0 :=
  processPortfolioReturns_trim c6Asset (fun _ => 10) 1 (by decide) (by decide)
    (by decide) (by norm_num [c6Asset])

/-! Claims C7 and C10: the chart merger.  `MapInv Q` states that every
entry of every per-date record of a date-keyed map satisfies `Q`. -/

def MapInv {β : Type} (Q : String → String × β → Prop)
    (mm : List (String × List (String × β))) : Prop :=
  ∀ d e, e ∈ (mapGet mm d).getD [] → Q d e

theorem getD_mapGet_mapSet {β : Type}
    (mm : List (String × List (String × β))) (date d : String)
    (rec' : List (String × β)) :
    (mapGet (mapSet mm date rec') d).getD []
      = if d = date then rec' else (mapGet mm d).getD [] := by
  rw [mapGet_mapSet]
  split <;> rfl

theorem MapInv_mapSet_nil {β : Type} {Q : String → String × β → Prop}
    {mm : List (String × List (String × β))} {date : String}
    (h : MapInv Q mm) : MapInv Q (mapSet mm date []) := by
  intro d e he
  rw [getD_mapGet_mapSet] at he
  split at he
  · exact absurd he (List.not_mem_nil e)
  · exact h d e he

theorem MapInv_update {β : Type} {Q : String → String × β → Prop}
    {mm : List (String × List (String × β))} {date key : String} {v : β}
    (h : MapInv Q mm) (hnew : Q date (key, v)) :
    MapInv Q (mapSet mm date
      (mapSet ((mapGet mm date).getD []) key v)) := by
  intro d e he
  rw [getD_mapGet_mapSet] at he
  split at he
  case isTrue hd =>
    subst hd
    rcases mem_mapSet he with h1 | h1
    · rw [h1]; exact hnew
    · exact h d e h1
  case isFalse => exact h d e he

/-- All `(symbol, point)` pairs fed to the merge loops, in order. -/
def assetPoints (prs : List PortfolioReturnData) :
    List (String × ReturnDataPoint) :=
  prs.flatMap (fun a => a.returns.map (fun pt => (a.symbol, pt)))

/-- Entries of `returnsByDate` records: a rounded return of a source point
with the record's date. -/
def QReturns (src : List (String × ReturnDataPoint)) (d : String)
    (e : String × ℚ) : Prop :=
  ∃ sp ∈ src, sp.1 = e.1 ∧ sp.2.date = d ∧ e.2 = rounded2 sp.2.returnPercent

/-- Entries of `pricesByDate` records: an unrounded price of a source point
under the `symbol ++ "_price"` key. -/
def QPrices (src : List (String × ReturnDataPoint)) (d : String)
    (e : String × ℚ) : Prop :=
  ∃ sp ∈ src, e.1 = sp.1 ++ "_price" ∧ sp.2.date = d ∧ e.2 = sp.2.price

/-- Entries of `smaByDate` records: a rounded defined SMA value of a source
point under the `symbol ++ "_sma"` key. -/
def QSma (src : List (String × ReturnDataPoint)) (d : String)
    (e : String × ℚ) : Prop :=
  ∃ sp ∈ src, ∃ q : ℚ, e.1 = sp.1 ++ "_sma" ∧ sp.2.date = d ∧
    sp.2.smaReturnPercent = some q ∧ e.2 = rounded2 q

theorem mergeStep_inv (src : List (String × ReturnDataPoint)) (sym : String)
    (pt : ReturnDataPoint) (m : MergeMaps) (hmem : (sym, pt) ∈ src)
    (hR : MapInv (QReturns src) m.returnsByDate)
    (hP : MapInv (QPrices src) m.pricesByDate)
    (hS : MapInv (QSma src) m.smaByDate) :
    MapInv (QReturns src) (mergeStep sym m pt).returnsByDate ∧
    MapInv (QPrices src) (mergeStep sym m pt).pricesByDate ∧
    MapInv (QSma src) (mergeStep sym m pt).smaByDate := by
  set m1 := (if (mapGet m.returnsByDate pt.date).isNone then
    ({ returnsByDate := mapSet m.returnsByDate pt.date []
       pricesByDate := mapSet m.pricesByDate pt.date []
       smaByDate := mapSet m.smaByDate pt.date []
       timestampByDate := mapSet m.timestampByDate pt.date pt.timestamp }
      : MergeMaps)
    else m) with hm1
  have h1R : MapInv (QReturns src) m1.returnsByDate := by
    rw [hm1]; split
    · exact MapInv_mapSet_nil hR
    · exact hR
  have h1P : MapInv (QPrices src) m1.pricesByDate := by
    rw [hm1]; split
    · exact MapInv_mapSet_nil hP
    · exact hP
  have h1S : MapInv (QSma src) m1.smaByDate := by
    rw [hm1]; split
    · exact MapInv_mapSet_nil hS
    · exact hS
  cases hsma : pt.smaReturnPercent with
  | none =>
    simp only [mergeStep, hsma, ← hm1]
    refine ⟨MapInv_update h1R ⟨(sym, pt), hmem, rfl, rfl, rfl⟩,
      MapInv_update h1P ⟨(sym, pt), hmem, rfl, rfl, rfl⟩, h1S⟩
  | some s =>
    simp only [mergeStep, hsma, ← hm1]
    refine ⟨MapInv_update h1R ⟨(sym, pt), hmem, rfl, rfl, rfl⟩,
      MapInv_update h1P ⟨(sym, pt), hmem, rfl, rfl, rfl⟩,
      MapInv_update h1S ⟨(sym, pt), hmem, s, rfl, rfl, hsma, rfl⟩⟩

theorem buildMergeMaps_inv (prs : List PortfolioReturnData) :
    MapInv (QReturns (assetPoints prs)) (buildMergeMaps prs).returnsByDate ∧
    MapInv (QPrices (assetPoints prs)) (buildMergeMaps prs).pricesByDate ∧
    MapInv (QSma (assetPoints prs)) (buildMergeMaps prs).smaByDate := by
  unfold buildMergeMaps
  apply foldl_preserves
    (P := fun (mm : MergeMaps) =>
      MapInv (QReturns (assetPoints prs)) mm.returnsByDate ∧
      MapInv (QPrices (assetPoints prs)) mm.pricesByDate ∧
      MapInv (QSma (assetPoints prs)) mm.smaByDate)
  · refine ⟨?_, ?_, ?_⟩ <;> · intro d e he; exact absurd he (List.not_mem_nil e)
  · intro mm asset hmm hasset
    apply foldl_preserves
      (P := fun (mm : MergeMaps) =>
        MapInv (QReturns (assetPoints prs)) mm.returnsByDate ∧
        MapInv (QPrices (assetPoints prs)) mm.pricesByDate ∧
        MapInv (QSma (assetPoints prs)) mm.smaByDate)
    · exact hmm
    · intro mm' pt hmm' hpt
      exact mergeStep_inv _ _ _ _
        (List.mem_flatMap.mpr ⟨asset, hasset,
          List.mem_map.mpr ⟨pt, hpt, rfl⟩⟩)
        hmm'.1 hmm'.2.1 hmm'.2.2

/-- The two-decimal rounding moves a value by at most `0.005`. -/
theorem abs_rounded2_sub_le (q : ℚ) : |rounded2 q - q| ≤ 1 / 200 := by
  unfold rounded2
  by_cases hq : q < 0
  · rw [if_pos hq]
    have h := abs_sub_round ((-q) * 100)
    have heq : ((-(round ((-q) * 100)) : ℤ) : ℚ) / 100 - q
        = -(((round ((-q) * 100) : ℤ) : ℚ) - (-q) * 100) / 100 := by
      push_cast
      ring
    rw [heq, abs_div, abs_neg, abs_sub_comm]
    rw [show |(100 : ℚ)| = 100 by norm_num]
    linarith
  · rw [if_neg hq]
    have h := abs_sub_round (q * 100)
    have heq : ((round (q * 100) : ℤ) : ℚ) / 100 - q
        = -((q * 100) - ((round (q * 100) : ℤ) : ℚ)) / 100 := by
      push_cast
      ring
    rw [heq, abs_div, abs_neg]
    rw [show |(100 : ℚ)| = 100 by norm_num]
    linarith

/-- C10: every value stored in a merged row's dynamic return and SMA fields
is the two-decimal rounding (`Number(x.toFixed(2))`) of a source point's
value for that row's date — hence within `0.005` of it — while price fields
are passed through unrounded. -/
theorem mergeReturnsForChart_rounding (prs : List PortfolioReturnData) :
    ∀ row ∈ mergeReturnsForChart prs,
      (∀ sv ∈ row.returnsFields, ∃ a ∈ prs, ∃ pt ∈ a.returns,
        sv.1 = a.symbol ∧ pt.date = row.date ∧
        sv.2 = rounded2 pt.returnPercent ∧
        |sv.2 - pt.returnPercent| ≤ 1 / 200) ∧
      (∀ sv ∈ row.priceFields, ∃ a ∈ prs, ∃ pt ∈ a.returns,
        sv.1 = a.symbol ++ "_price" ∧ pt.date = row.date ∧
        sv.2 = pt.price) ∧
      (∀ sv ∈ row.smaFields, ∃ a ∈ prs, ∃ pt ∈ a.returns, ∃ q : ℚ,
        sv.1 = a.symbol ++ "_sma" ∧ pt.date = row.date ∧
        pt.smaReturnPercent = some q ∧ sv.2 = rounded2 q ∧
        |sv.2 - q| ≤ 1 / 200) := by
  intro row hrow
  unfold mergeReturnsForChart at hrow
  by_cases hempty : prs.length = 0
  · rw [if_pos hempty] at hrow
    exact absurd hrow (List.not_mem_nil row)
  rw [if_neg hempty] at hrow
  obtain ⟨d, hd, hrowg⟩ := List.mem_map.mp hrow
  obtain ⟨hRinv, hPinv, hSinv⟩ := buildMergeMaps_inv prs
  have hdate : row.date = d := by rw [← hrowg]
  refine ⟨?_, ?_, ?_⟩
  · intro sv hsv
    have hfields : row.returnsFields
        = (mapGet (buildMergeMaps prs).returnsByDate d).getD [] := by
      rw [← hrowg]
    rw [hfields] at hsv
    obtain ⟨sp, hsp, h1, h2, h3⟩ := hRinv d sv hsv
    obtain ⟨a, ha, hsp2⟩ := List.mem_flatMap.mp hsp
    obtain ⟨pt, hpt, hspeq⟩ := List.mem_map.mp hsp2
    rw [← hspeq] at h1 h2 h3
    refine ⟨a, ha, pt, hpt, h1.symm, ?_, h3, ?_⟩
    · rw [hdate]; exact h2
    · rw [h3]; exact abs_rounded2_sub_le _
  · intro sv hsv
    have hfields : row.priceFields
        = (mapGet (buildMergeMaps prs).pricesByDate d).getD [] := by
      rw [← hrowg]
    rw [hfields] at hsv
    obtain ⟨sp, hsp, h1, h2, h3⟩ := hPinv d sv hsv
    obtain ⟨a, ha, hsp2⟩ := List.mem_flatMap.mp hsp
    obtain ⟨pt, hpt, hspeq⟩ := List.mem_map.mp hsp2
    rw [← hspeq] at h1 h2 h3
    refine ⟨a, ha, pt, hpt, h1, ?_, h3⟩
    rw [hdate]; exact h2
  · intro sv hsv
    have hfields : row.smaFields
        = (mapGet (buildMergeMaps prs).smaByDate d).getD [] := by
      rw [← hrowg]
    rw [hfields] at hsv
    obtain ⟨sp, hsp, q, h1, h2, h3, h4⟩ := hSinv d sv hsv
    obtain ⟨a, ha, hsp2⟩ := List.mem_flatMap.mp hsp
    obtain ⟨pt, hpt, hspeq⟩ := List.mem_map.mp hsp2
    rw [← hspeq] at h1 h2 h3
    refine ⟨a, ha, pt, hpt, q, h1, ?_, h3, h4, ?_⟩
    · rw [hdate]; exact h2
    · rw [h4]; exact abs_rounded2_sub_le _

/-- Concrete single-asset input for the merge claims. -/
def wMergeAsset : PortfolioReturnData :=
  ⟨"W", "W", "c", [⟨"d1", 1, 1/3, 2, some (1/3)⟩]⟩

/-- The single chart row produced for `wMergeAsset`. -/
def wRow : ChartRow :=
  ⟨"d1", 1, [("W", 33/100)], [("W_price", 2)], [("W_sma", 33/100)]⟩

theorem wMergeRows : mergeReturnsForChart [wMergeAsset] = [wRow] := by
  norm_num +decide [mergeReturnsForChart, buildMergeMaps, mergeStep, mapSet,
    mapGet, rounded2, wMergeAsset, wRow, List.find?, round_eq,
    List.mergeSort_singleton]

/-- C10 witness: `mergeReturnsForChart_rounding` at the concrete one-asset
input whose return and SMA values 1/3 are stored rounded to 0.33. -/
theorem mergeReturnsForChart_rounding_witness :
    (∀ sv ∈ wRow.returnsFields, ∃ a ∈ [wMergeAsset], ∃ pt ∈ a.returns,
      sv.1 = a.symbol ∧ pt.date = wRow.date ∧
      sv.2 = rounded2 pt.returnPercent ∧
      |sv.2 - pt.returnPercent| ≤ 1 / 200) ∧
    (∀ sv ∈ wRow.priceFields, ∃ a ∈ [wMergeAsset], ∃ pt ∈ a.returns,
      sv.1 = a.symbol ++ "_price" ∧ pt.date = wRow.date ∧
      sv.2 = pt.price) ∧
    (∀ sv ∈ wRow.smaFields, ∃ a ∈ [wMergeAsset], ∃ pt ∈ a.returns, ∃ q : ℚ,
      sv.1 = a.symbol ++ "_sma" ∧ pt.date = wRow.date ∧
      pt.smaReturnPercent = some q ∧ sv.2 = rounded2 q ∧
      |sv.2 - q| ≤ 1 / 200) :=
  mergeReturnsForChart_rounding [wMergeAsset] wRow
    (by rw [wMergeRows]; exact List.mem_singleton.mpr rfl)

/-- C7 (amended): the merger's output is empty for an empty collection,
its rows are sorted chronologically by timestamp, and — provided the asset
symbols are pairwise distinct (the counterexample shows duplicate symbols
break it) — every output date is present in every input asset's series. -/
theorem mergeReturnsForChart_strict_intersection :
    mergeReturnsForChart [] = [] ∧
    ∀ prs : List PortfolioReturnData,
      List.Sorted (fun r1 r2 : ChartRow => r1.timestamp ≤ r2.timestamp)
        (mergeReturnsForChart prs) ∧
      ((prs.map (fun a => a.symbol)).Nodup →
        ∀ row ∈ mergeReturnsForChart prs, ∀ a ∈ prs,
          ∃ pt ∈ a.returns, pt.date = row.date) := by
  refine ⟨rfl, ?_⟩
  intro prs
  constructor
  · by_cases hempty : prs.length = 0
    · unfold mergeReturnsForChart
      rw [if_pos hempty]
      exact List.sorted_nil
    · simp only [mergeReturnsForChart, if_neg hempty]
      have htrans : ∀ a b c : String,
          (decide ((mapGet (buildMergeMaps prs).timestampByDate a).getD 0
            ≤ (mapGet (buildMergeMaps prs).timestampByDate b).getD 0)) = true →
          (decide ((mapGet (buildMergeMaps prs).timestampByDate b).getD 0
            ≤ (mapGet (buildMergeMaps prs).timestampByDate c).getD 0)) = true →
          (decide ((mapGet (buildMergeMaps prs).timestampByDate a).getD 0
            ≤ (mapGet (buildMergeMaps prs).timestampByDate c).getD 0)) = true := by
        intro a b c hab hbc
        simp only [decide_eq_true_eq] at hab hbc ⊢
        exact le_trans hab hbc
      have htotal : ∀ a b : String,
          ((decide ((mapGet (buildMergeMaps prs).timestampByDate a).getD 0
            ≤ (mapGet (buildMergeMaps prs).timestampByDate b).getD 0))
          || (decide ((mapGet (buildMergeMaps prs).timestampByDate b).getD 0
            ≤ (mapGet (buildMergeMaps prs).timestampByDate a).getD 0))) = true := by
        intro a b
        simp only [Bool.or_eq_true, decide_eq_true_eq]
        exact le_total _ _
      have hp := List.sorted_mergeSort htrans htotal
        ((buildMergeMaps prs).returnsByDate.map (fun p => p.1))
      have hp2 := hp.filter (fun date =>
        (prs.map (fun a => a.symbol)).all (fun symbol =>
          (mapGet ((mapGet (buildMergeMaps prs).returnsByDate date).getD [])
            symbol).isSome))
      exact List.Pairwise.map _
        (fun a b hab => by simpa using hab) hp2
  · intro hnodup row hrow a ha
    have hempty : ¬ prs.length = 0 := by
      intro h0
      rw [List.length_eq_zero] at h0
      subst h0
      exact absurd ha (List.not_mem_nil a)
    simp only [mergeReturnsForChart, if_neg hempty] at hrow
    obtain ⟨d, hd, hrowg⟩ := List.mem_map.mp hrow
    obtain ⟨hdall, hpred⟩ := List.mem_filter.mp hd
    have hsym : a.symbol ∈ prs.map (fun x => x.symbol) :=
      List.mem_map.mpr ⟨a, ha, rfl⟩
    have hsome := (List.all_eq_true.mp hpred) a.symbol hsym
    obtain ⟨v, hv⟩ := Option.isSome_iff_exists.mp (by simpa using hsome)
    have hmem := mem_of_mapGet_eq_some hv
    obtain ⟨sp, hsp, h1, h2, _⟩ := (buildMergeMaps_inv prs).1 d _ hmem
    obtain ⟨a', ha', hsp2⟩ := List.mem_flatMap.mp hsp
    obtain ⟨pt, hpt, hspeq⟩ := List.mem_map.mp hsp2
    rw [← hspeq] at h1 h2
    have haa : a' = a :=
      List.inj_on_of_nodup_map hnodup ha' ha h1
    rw [haa] at hpt
    refine ⟨pt, hpt, ?_⟩
    rw [← hrowg]
    exact h2

/-- C7 witness: the amended intersection property applied at the concrete
one-asset input (distinct symbols trivially). -/
theorem mergeReturnsForChart_strict_intersection_witness :
    ∃ pt ∈ wMergeAsset.returns, pt.date = wRow.date :=
  ((mergeReturnsForChart_strict_intersection.2 [wMergeAsset]).2 (by decide))
    wRow (by rw [wMergeRows]; exact List.mem_singleton.mpr rfl)
    wMergeAsset (List.mem_singleton.mpr rfl)

/-- Two assets sharing the symbol `"X"` but trading on disjoint dates. -/
def dupA : PortfolioReturnData := ⟨"X", "X1", "c1", [⟨"d1", 1, 0, 1, none⟩]⟩

/-- Second asset with the duplicated symbol, see `dupA`. -/
def dupB : PortfolioReturnData := ⟨"X", "X2", "c2", [⟨"d2", 2, 0, 1, none⟩]⟩

theorem dupRows : mergeReturnsForChart [dupA, dupB]
    = [⟨"d1", 1, [("X", 0)], [("X_price", 1)], []⟩,
       ⟨"d2", 2, [("X", 0)], [("X_price", 1)], []⟩] := by
  norm_num +decide [mergeReturnsForChart, buildMergeMaps, mergeStep, mapSet,
    mapGet, rounded2, dupA, dupB, List.find?, round_eq, List.mergeSort,
    List.merge]

/-- C7 counterexample: with duplicated symbols the filter only checks the
shared symbol key, so the merged output contains the date `"d2"` although
asset `dupA` has no data point for it, refuting the claim for arbitrary
collections. -/
theorem mergeReturnsForChart_intersection_cex :
    ¬ (∀ row ∈ mergeReturnsForChart [dupA, dupB], ∀ a ∈ [dupA, dupB],
        ∃ pt ∈ a.returns, pt.date = row.date) := by
  intro h
  obtain ⟨pt, hpt, hdate⟩ := h ⟨"d2", 2, [("X", 0)], [("X_price", 1)], []⟩
    (by rw [dupRows]; simp) dupA (by simp)
  have hpt1 : pt = ⟨"d1", 1, 0, 1, none⟩ := by simpa [dupA] using hpt
  rw [hpt1] at hdate
  exact absurd hdate (by decide)

/-! Claims C3, C8, C9: the correlator.  Exact-arithmetic groundwork for
`pearsonCorrelation` and `stdDev`. -/

/-- The first factor of `pearsonDen2` for a vector against itself,
`n*sumX2 - sumX*sumX`, with `n` the vector's own length. -/
def pearsonAx (x : List ℚ) : ℚ :=
  (x.length : ℚ) * sampleSumProd x x x.length
    - sampleSum x x.length * sampleSum x x.length

theorem list_sum_eq_range (z : List ℚ) :
    z.sum = ∑ i ∈ Finset.range z.length, z.getD i 0 := by
  induction z with
  | nil => simp
  | cons a t ih =>
    rw [List.sum_cons, List.length_cons, Finset.sum_range_succ']
    simp only [List.getD_cons_succ, List.getD_cons_zero]
    rw [ih]
    ring

theorem map_sum_eq_range (z : List ℚ) (f : ℚ → ℚ) :
    (z.map f).sum = ∑ i ∈ Finset.range z.length, f (z.getD i 0) := by
  rw [list_sum_eq_range (z.map f), List.length_map]
  refine Finset.sum_congr rfl ?_
  intro i hi
  exact getD_map_of_lt f z i 0 0 (Finset.mem_range.mp hi)

theorem centered_sum_identity (z w : List ℚ) (n : ℕ) (hn : (n : ℚ) ≠ 0) :
    (n : ℚ) * sampleSumProd z w n - sampleSum z n * sampleSum w n
      = (n : ℚ) * ∑ i ∈ Finset.range n,
          (z.getD i 0 - sampleSum z n / n) * (w.getD i 0 - sampleSum w n / n) := by
  have hexp : ∀ i ∈ Finset.range n,
      (z.getD i 0 - sampleSum z n / n) * (w.getD i 0 - sampleSum w n / n)
        = z.getD i 0 * w.getD i 0
          - sampleSum z n / n * w.getD i 0
          - sampleSum w n / n * z.getD i 0
          + sampleSum z n / n * (sampleSum w n / n) := by
    intro i _
    ring
  rw [Finset.sum_congr rfl hexp, Finset.sum_add_distrib,
    Finset.sum_sub_distrib, Finset.sum_sub_distrib, ← Finset.mul_sum,
    ← Finset.mul_sum, Finset.sum_const, Finset.card_range, nsmul_eq_mul]
  rw [show ∑ i ∈ Finset.range n, z.getD i 0 * w.getD i 0
    = sampleSumProd z w n from rfl]
  rw [show ∑ i ∈ Finset.range n, z.getD i 0 = sampleSum z n from rfl]
  rw [show ∑ i ∈ Finset.range n, w.getD i 0 = sampleSum w n from rfl]
  field_simp
  ring

theorem pearsonNum_sq_le_pearsonDen2 (x y : List ℚ) :
    pearsonNum x y ^ 2 ≤ pearsonDen2 x y := by
  rcases Nat.eq_zero_or_pos x.length with h0 | hposn
  · unfold pearsonNum pearsonDen2 sampleSum sampleSumProd
    rw [h0]
    simp
  · have hn : ((x.length : ℚ)) ≠ 0 := by
      exact_mod_cast Nat.pos_iff_ne_zero.mp hposn
    have hz := centered_sum_identity x y x.length hn
    have hx := centered_sum_identity x x x.length hn
    have hy := centered_sum_identity y y x.length hn
    have hcs := Finset.sum_mul_sq_le_sq_mul_sq (Finset.range x.length)
      (fun i => x.getD i 0 - sampleSum x x.length / x.length)
      (fun i => y.getD i 0 - sampleSum y x.length / x.length)
    simp only [pow_two] at hcs
    unfold pearsonNum pearsonDen2
    rw [hz, hx, hy]
    set S1 := ∑ i ∈ Finset.range x.length,
      (x.getD i 0 - sampleSum x x.length / x.length)
        * (y.getD i 0 - sampleSum y x.length / x.length)
    set S2 := ∑ i ∈ Finset.range x.length,
      (x.getD i 0 - sampleSum x x.length / x.length)
        * (x.getD i 0 - sampleSum x x.length / x.length)
    set S3 := ∑ i ∈ Finset.range x.length,
      (y.getD i 0 - sampleSum y x.length / x.length)
        * (y.getD i 0 - sampleSum y x.length / x.length)
    calc ((x.length : ℚ) * S1) ^ 2 = (x.length : ℚ) ^ 2 * (S1 * S1) := by ring
    _ ≤ (x.length : ℚ) ^ 2 * (S2 * S3) :=
      mul_le_mul_of_nonneg_left hcs (sq_nonneg _)
    _ = ((x.length : ℚ) * S2) * ((x.length : ℚ) * S3) := by ring

theorem pearsonAx_nonneg (x : List ℚ) : 0 ≤ pearsonAx x := by
  rcases Nat.eq_zero_or_pos x.length with h0 | hposn
  · unfold pearsonAx sampleSum sampleSumProd
    rw [h0]
    simp
  · have hn : ((x.length : ℚ)) ≠ 0 := by
      exact_mod_cast Nat.pos_iff_ne_zero.mp hposn
    unfold pearsonAx
    rw [centered_sum_identity x x x.length hn]
    apply mul_nonneg (by positivity)
    apply Finset.sum_nonneg
    intro i _
    exact mul_self_nonneg _

theorem pearson_bounds (x y : List ℚ) :
    -1 ≤ pearsonCorrelation x y ∧ pearsonCorrelation x y ≤ 1 := by
  unfold pearsonCorrelation
  by_cases h0 : x.length = 0
  · rw [if_pos h0]
    norm_num
  rw [if_neg h0]
  by_cases hd : Real.sqrt ((pearsonDen2 x y : ℚ) : ℝ) = 0
  · rw [if_pos hd]
    norm_num
  rw [if_neg hd]
  have hDpos : 0 < Real.sqrt ((pearsonDen2 x y : ℚ) : ℝ) :=
    lt_of_le_of_ne (Real.sqrt_nonneg _) (Ne.symm hd)
  have h1 : ((pearsonNum x y : ℚ) : ℝ) ^ 2 ≤ ((pearsonDen2 x y : ℚ) : ℝ) := by
    exact_mod_cast pearsonNum_sq_le_pearsonDen2 x y
  have habs : |((pearsonNum x y : ℚ) : ℝ)|
      ≤ Real.sqrt ((pearsonDen2 x y : ℚ) : ℝ) := by
    calc |((pearsonNum x y : ℚ) : ℝ)|
        = Real.sqrt (((pearsonNum x y : ℚ) : ℝ) ^ 2) :=
          (Real.sqrt_sq_eq_abs _).symm
    _ ≤ Real.sqrt ((pearsonDen2 x y : ℚ) : ℝ) := Real.sqrt_le_sqrt h1
  have hq : |((pearsonNum x y : ℚ) : ℝ)
      / Real.sqrt ((pearsonDen2 x y : ℚ) : ℝ)| ≤ 1 := by
    rw [abs_div, abs_of_pos hDpos]
    exact (div_le_one hDpos).mpr habs
  exact abs_le.mp hq

theorem varQ_nonneg (x : List ℚ) : 0 ≤ varQ x := by
  unfold varQ
  split
  · exact le_refl 0
  · apply div_nonneg
    · apply List.sum_nonneg
      intro v hv
      obtain ⟨u, _, rfl⟩ := List.mem_map.mp hv
      exact sq_nonneg _
    · exact Nat.cast_nonneg _

theorem varQ_eq_zero_of_stdDev (x : List ℚ) (h : stdDev x = 0) :
    varQ x = 0 := by
  unfold stdDev at h
  split at h
  case isTrue h0 =>
    unfold varQ
    rw [if_pos h0]
  case isFalse h0 =>
    have hle : ((varQ x : ℚ) : ℝ) ≤ 0 := Real.sqrt_eq_zero'.mp h
    have hle2 : varQ x ≤ 0 := by exact_mod_cast hle
    exact le_antisymm hle2 (varQ_nonneg x)

theorem pearsonAx_eq_sq_mul_varQ (x : List ℚ) (h0 : x.length ≠ 0) :
    pearsonAx x = ((x.length : ℚ)) ^ 2 * varQ x := by
  have hn : ((x.length : ℚ)) ≠ 0 := by exact_mod_cast h0
  unfold pearsonAx varQ
  rw [if_neg h0, centered_sum_identity x x x.length hn]
  show _ = ((x.length : ℚ)) ^ 2
    * ((x.map (fun v => (v - x.sum / (x.length : ℚ)) ^ 2)).sum / (x.length : ℚ))
  rw [map_sum_eq_range x (fun v => (v - x.sum / x.length) ^ 2),
    list_sum_eq_range x]
  rw [show (∑ i ∈ Finset.range x.length, x.getD i 0) = sampleSum x x.length
    from rfl]
  rw [Finset.mul_sum, Finset.sum_div, Finset.mul_sum]
  refine Finset.sum_congr rfl ?_
  intro i _
  field_simp
  ring

theorem pearsonAx_zero_of_stdDev (x : List ℚ) (h : stdDev x = 0) :
    pearsonAx x = 0 := by
  by_cases h0 : x.length = 0
  · unfold pearsonAx sampleSum sampleSumProd
    rw [h0]
    simp
  · rw [pearsonAx_eq_sq_mul_varQ x h0, varQ_eq_zero_of_stdDev x h, mul_zero]

theorem pearsonDen2_eq_mul (x y : List ℚ) (hlen : y.length = x.length) :
    pearsonDen2 x y = pearsonAx x * pearsonAx y := by
  unfold pearsonDen2 pearsonAx
  rw [hlen]

theorem pearson_zero_of_den2_zero (x y : List ℚ)
    (h : pearsonDen2 x y = 0) : pearsonCorrelation x y = 0 := by
  unfold pearsonCorrelation
  by_cases h0 : x.length = 0
  · rw [if_pos h0]
  · rw [if_neg h0, if_pos (by rw [h]; push_cast; exact Real.sqrt_zero)]

theorem pearson_zero_left (x y : List ℚ) (h : pearsonAx x = 0) :
    pearsonCorrelation x y = 0 := by
  apply pearson_zero_of_den2_zero
  unfold pearsonDen2
  rw [show (x.length : ℚ) * sampleSumProd x x x.length
    - sampleSum x x.length * sampleSum x x.length = pearsonAx x from rfl, h,
    zero_mul]

theorem pearson_zero_right (x y : List ℚ) (hlen : y.length = x.length)
    (h : pearsonAx y = 0) : pearsonCorrelation x y = 0 := by
  apply pearson_zero_of_den2_zero
  rw [pearsonDen2_eq_mul x y hlen, h, mul_zero]

theorem mem_calculateCorrelations {data : List PortfolioReturnData}
    {p : CorrelationPair} (hp : p ∈ calculateCorrelations data) :
    ∃ ij ∈ pairIndexList data.length,
      p = ccNormalize data (ccRawPair data ij.1 ij.2) := by
  unfold calculateCorrelations at hp
  split at hp
  · exact absurd hp (List.not_mem_nil p)
  · have hp2 := (List.mergeSort_perm _ _).mem_iff.mp hp
    obtain ⟨q, hq, hq2⟩ := List.mem_map.mp hp2
    obtain ⟨ij, hij, hij2⟩ := List.mem_map.mp hq
    exact ⟨ij, hij, by rw [← hq2, ← hij2]⟩

theorem ccNormalize_correlation (data : List PortfolioReturnData)
    (q : CorrelationPair) :
    (ccNormalize data q).correlation = q.correlation := by
  unfold ccNormalize
  split <;> rfl

/-- C8: every correlation reported by `calculateCorrelations` lies in
`[-1, 1]` (the zero guard handles degenerate denominators, and
Cauchy-Schwarz bounds the quotient otherwise). -/
theorem calculateCorrelations_bounds (data : List PortfolioReturnData)
    (p : CorrelationPair) (hp : p ∈ calculateCorrelations data) :
    -1 ≤ p.correlation ∧ p.correlation ≤ 1 := by
  obtain ⟨ij, _, rfl⟩ := mem_calculateCorrelations hp
  rw [ccNormalize_correlation]
  rw [show (ccRawPair data ij.1 ij.2).correlation
    = pearsonCorrelation (ccAligned data (data.getD ij.1 pdr0).symbol)
        (ccAligned data (data.getD ij.2 pdr0).symbol) from rfl]
  exact pearson_bounds _ _

theorem ccStd_eq (data : List PortfolioReturnData) (s : String) :
    ccStd data s = stdDev (ccAligned data s) := rfl

theorem ccAligned_length (data : List PortfolioReturnData) (s : String) :
    (ccAligned data s).length = (ccCommonDates data).length :=
  List.length_map _ _

theorem ccNormalize_vc_zero (data : List PortfolioReturnData)
    (q : CorrelationPair) (h : q.varianceContribution = 0) :
    (ccNormalize data q).varianceContribution = 0 := by
  unfold ccNormalize
  split
  · show q.varianceContribution / ccTotalVariance data * 100 = 0
    rw [h, zero_div, zero_mul]
  · exact h

theorem ccNormalize_va_zero (data : List PortfolioReturnData)
    (q : CorrelationPair) (h : q.varianceA = 0) :
    (ccNormalize data q).varianceA = 0 := by
  unfold ccNormalize
  split
  · show q.varianceA / ccTotalVariance data * 100 = 0
    rw [h, zero_div, zero_mul]
  · exact h

theorem ccNormalize_vb_zero (data : List PortfolioReturnData)
    (q : CorrelationPair) (h : q.varianceB = 0) :
    (ccNormalize data q).varianceB = 0 := by
  unfold ccNormalize
  split
  · show q.varianceB / ccTotalVariance data * 100 = 0
    rw [h, zero_div, zero_mul]
  · exact h

/-- C9: (a) whenever a symbol's aligned daily-return vector has zero
standard deviation, every reported pair involving that symbol has
correlation 0 and zero variance contributions (on both normalization
branches, so no division by zero is ever material); (b) when the total
portfolio variance is 0 the normalization pass is skipped and every output
pair is a raw (unnormalized) pair. -/
theorem calculateCorrelations_zero_variance_guard :
    (∀ (data : List PortfolioReturnData) (s : String),
      stdDev (ccAligned data s) = 0 →
      ∀ p ∈ calculateCorrelations data,
        (p.symbolA = s →
          p.correlation = 0 ∧ p.varianceContribution = 0 ∧ p.varianceA = 0) ∧
        (p.symbolB = s →
          p.correlation = 0 ∧ p.varianceContribution = 0 ∧ p.varianceB = 0)) ∧
    (∀ data : List PortfolioReturnData, ccTotalVariance data = 0 →
      ∀ p ∈ calculateCorrelations data,
        p ∈ (pairIndexList data.length).map
          (fun ij => ccRawPair data ij.1 ij.2)) := by
  constructor
  · intro data s hstd p hp
    obtain ⟨ij, _, rfl⟩ := mem_calculateCorrelations hp
    have hsymA : (ccNormalize data (ccRawPair data ij.1 ij.2)).symbolA
        = (data.getD ij.1 pdr0).symbol := by
      unfold ccNormalize
      split <;> rfl
    have hsymB : (ccNormalize data (ccRawPair data ij.1 ij.2)).symbolB
        = (data.getD ij.2 pdr0).symbol := by
      unfold ccNormalize
      split <;> rfl
    have hcorr := ccNormalize_correlation data (ccRawPair data ij.1 ij.2)
    have hlen : (ccAligned data (data.getD ij.2 pdr0).symbol).length
        = (ccAligned data (data.getD ij.1 pdr0).symbol).length := by
      rw [ccAligned_length, ccAligned_length]
    constructor
    · intro hAs
      rw [hsymA] at hAs
      have hstdA : ccStd data (data.getD ij.1 pdr0).symbol = 0 := by
        rw [ccStd_eq, hAs, hstd]
      have hc0 : (ccRawPair data ij.1 ij.2).correlation = 0 := by
        rw [show (ccRawPair data ij.1 ij.2).correlation
          = pearsonCorrelation (ccAligned data (data.getD ij.1 pdr0).symbol)
              (ccAligned data (data.getD ij.2 pdr0).symbol) from rfl]
        apply pearson_zero_left
        apply pearsonAx_zero_of_stdDev
        rw [hAs, hstd]
      refine ⟨by rw [hcorr, hc0], ?_, ?_⟩
      · apply ccNormalize_vc_zero
        rw [show (ccRawPair data ij.1 ij.2).varianceContribution
          = ccPairVariance data ij.1 ij.2 from rfl]
        unfold ccPairVariance ccCov
        rw [hstdA]
        ring
      · apply ccNormalize_va_zero
        rw [show (ccRawPair data ij.1 ij.2).varianceA
          = ccAssetVariance data (data.getD ij.1 pdr0).symbol from rfl]
        unfold ccAssetVariance
        rw [hstdA]
        ring
    · intro hBs
      rw [hsymB] at hBs
      have hstdB : ccStd data (data.getD ij.2 pdr0).symbol = 0 := by
        rw [ccStd_eq, hBs, hstd]
      have hc0 : (ccRawPair data ij.1 ij.2).correlation = 0 := by
        rw [show (ccRawPair data ij.1 ij.2).correlation
          = pearsonCorrelation (ccAligned data (data.getD ij.1 pdr0).symbol)
              (ccAligned data (data.getD ij.2 pdr0).symbol) from rfl]
        apply pearson_zero_right _ _ hlen
        apply pearsonAx_zero_of_stdDev
        rw [hBs, hstd]
      refine ⟨by rw [hcorr, hc0], ?_, ?_⟩
      · apply ccNormalize_vc_zero
        rw [show (ccRawPair data ij.1 ij.2).varianceContribution
          = ccPairVariance data ij.1 ij.2 from rfl]
        unfold ccPairVariance ccCov
        rw [hstdB]
        ring
      · apply ccNormalize_vb_zero
        rw [show (ccRawPair data ij.1 ij.2).varianceB
          = ccAssetVariance data (data.getD ij.2 pdr0).symbol from rfl]
        unfold ccAssetVariance
        rw [hstdB]
        ring
  · intro data htot p hp
    unfold calculateCorrelations at hp
    split at hp
    · exact absurd hp (List.not_mem_nil p)
    · have hp2 := (List.mergeSort_perm _ _).mem_iff.mp hp
      have hid : ∀ q ∈ (pairIndexList data.length).map
          (fun ij => ccRawPair data ij.1 ij.2), ccNormalize data q = q := by
        intro q _
        unfold ccNormalize
        rw [if_neg (by rw [htot]; exact lt_irrefl 0)]
      rw [List.map_congr_left hid] at hp2
      simpa using hp2

/-- C3: when at least two assets are given and the accumulated total
equal-weight portfolio variance is strictly positive, the normalized
diagonal contributions (one `w^2 var` term per asset, the value reported in
`varianceA`/`varianceB`) plus the normalized pairwise `varianceContribution`
values sum to exactly 100 (percent). -/
theorem calculateCorrelations_variance_sum (data : List PortfolioReturnData)
    (h2 : 2 ≤ data.length) (hpos : 0 < ccTotalVariance data) :
    ((data.map (fun a =>
        ccAssetVariance data a.symbol / ccTotalVariance data * 100)).sum
      + ((calculateCorrelations data).map
          (fun p => p.varianceContribution)).sum = 100)
    ∧ ∀ p ∈ calculateCorrelations data,
        p.varianceA = ccAssetVariance data p.symbolA / ccTotalVariance data * 100
        ∧ p.varianceB = ccAssetVariance data p.symbolB / ccTotalVariance data * 100 := by
  have hne : ccTotalVariance data ≠ 0 := ne_of_gt hpos
  constructor
  · unfold calculateCorrelations
    rw [if_neg (by omega)]
    have hperm := List.mergeSort_perm
      (((pairIndexList data.length).map
        (fun ij => ccRawPair data ij.1 ij.2)).map (ccNormalize data))
      (fun p q => decide (|q.correlation| ≤ |p.correlation|))
    rw [(hperm.map (fun p => p.varianceContribution)).sum_eq]
    rw [List.map_map, List.map_map]
    have hvc : ∀ ij ∈ pairIndexList data.length,
        (((fun p => p.varianceContribution) ∘ ccNormalize data) ∘
          (fun ij : ℕ × ℕ => ccRawPair data ij.1 ij.2)) ij
          = ccPairVariance data ij.1 ij.2 * (100 / ccTotalVariance data) := by
      intro ij _
      show (ccNormalize data (ccRawPair data ij.1 ij.2)).varianceContribution = _
      unfold ccNormalize
      rw [if_pos hpos]
      show ccPairVariance data ij.1 ij.2 / ccTotalVariance data * 100 = _
      ring
    have hdiag : ∀ a ∈ data,
        ccAssetVariance data a.symbol / ccTotalVariance data * 100
          = ccAssetVariance data a.symbol * (100 / ccTotalVariance data) := by
      intro a _
      ring
    rw [List.map_congr_left hvc, List.map_congr_left hdiag,
      List.sum_map_mul_right, List.sum_map_mul_right]
    have hdt : (data.map (fun a => ccAssetVariance data a.symbol)).sum
        = ccDiagTotal data := by
      unfold ccDiagTotal ccSymbols
      rw [List.map_map]
      rfl
    rw [hdt, ← add_mul]
    rw [show ccDiagTotal data + ((pairIndexList data.length).map
      (fun ij => ccPairVariance data ij.1 ij.2)).sum = ccTotalVariance data
      from rfl]
    field_simp
  · intro p hp
    obtain ⟨ij, _, rfl⟩ := mem_calculateCorrelations hp
    unfold ccNormalize
    rw [if_pos hpos]
    exact ⟨rfl, rfl⟩

/-- Concrete asset with daily returns `[1, 0]` for the correlator claims. -/
def corrAssetA : PortfolioReturnData := ⟨"A", "AssetA", "cA",
  [⟨"e1", 1, 0, 1, none⟩, ⟨"e2", 2, 100, 2, none⟩, ⟨"e3", 3, 100, 2, none⟩]⟩

/-- Concrete constant asset (daily returns `[0, 0]`, zero variance). -/
def corrAssetB : PortfolioReturnData := ⟨"B", "AssetB", "cB",
  [⟨"e1", 1, 0, 1, none⟩, ⟨"e2", 2, 0, 1, none⟩, ⟨"e3", 3, 0, 1, none⟩]⟩

/-- Two-asset input for the correlator claims. -/
def corrData : List PortfolioReturnData := [corrAssetA, corrAssetB]

theorem corr_aligned_A : ccAligned corrData "A" = [1, 0] := by
  norm_num +decide [ccAligned, ccCommonDates, ccDateMap, ccSymbols,
    dateMapStep, dailyReturns, mapSet, mapGet, List.find?, corrData,
    corrAssetA, corrAssetB]

theorem corr_aligned_B : ccAligned corrData "B" = [0, 0] := by
  norm_num +decide [ccAligned, ccCommonDates, ccDateMap, ccSymbols,
    dateMapStep, dailyReturns, mapSet, mapGet, List.find?, corrData,
    corrAssetA, corrAssetB]

theorem corr_std_B : stdDev (ccAligned corrData "B") = 0 := by
  rw [corr_aligned_B]
  unfold stdDev
  rw [if_neg (by decide)]
  rw [show varQ [0, 0] = 0 from by norm_num [varQ]]
  rw [show (((0 : ℚ)) : ℝ) = 0 from by norm_num]
  exact Real.sqrt_zero

theorem corr_std_A : stdDev (ccAligned corrData "A") = 1/2 := by
  rw [corr_aligned_A]
  unfold stdDev
  rw [if_neg (by decide)]
  rw [show varQ [1, 0] = 1/4 from by norm_num [varQ]]
  rw [show (((1/4 : ℚ)) : ℝ) = (1/2) ^ 2 from by norm_num]
  exact Real.sqrt_sq (by norm_num)

theorem corr_pearson0 :
    pearsonCorrelation (ccAligned corrData "A") (ccAligned corrData "B") = 0 :=
  pearson_zero_right _ _ (by rw [corr_aligned_A, corr_aligned_B]; rfl)
    (pearsonAx_zero_of_stdDev _ corr_std_B)

theorem corr_stdB_cc : ccStd corrData "B" = 0 := by
  rw [ccStd_eq]
  exact corr_std_B

theorem corr_weight : ccWeight corrData = 1/2 := by
  unfold ccWeight
  rw [show corrData.length = 2 from rfl]
  norm_num

theorem corr_total : ccTotalVariance corrData = 1/16 := by
  unfold ccTotalVariance ccDiagTotal
  rw [show ccSymbols corrData = ["A", "B"] from rfl,
    show pairIndexList corrData.length = [(0, 1)] from by decide]
  simp only [List.map_cons, List.map_nil, List.sum_cons, List.sum_nil]
  unfold ccPairVariance ccCov ccAssetVariance
  rw [show (corrData.getD 0 pdr0).symbol = "A" from rfl,
    show (corrData.getD 1 pdr0).symbol = "B" from rfl]
  rw [ccStd_eq, ccStd_eq, corr_std_A, corr_std_B, corr_weight, corr_pearson0]
  norm_num

/-- The single pair produced for `corrData`. -/
def corrPair : CorrelationPair :=
  ⟨"A", "B", "AssetA", "AssetB", "cA", "cB", 0, 0, 100, 0⟩

theorem corr_pairs : calculateCorrelations corrData = [corrPair] := by
  have hpv : ccPairVariance corrData 0 1 = 0 := by
    unfold ccPairVariance ccCov
    rw [show (corrData.getD 1 pdr0).symbol = "B" from rfl, corr_stdB_cc]
    ring
  have havA : ccAssetVariance corrData "A" = 1/16 := by
    unfold ccAssetVariance
    rw [ccStd_eq, corr_std_A, corr_weight]
    norm_num
  have havB : ccAssetVariance corrData "B" = 0 := by
    unfold ccAssetVariance
    rw [corr_stdB_cc]
    ring
  have hraweq : ccRawPair corrData 0 1
      = ⟨"A", "B", "AssetA", "AssetB", "cA", "cB",
        pearsonCorrelation (ccAligned corrData "A") (ccAligned corrData "B"),
        ccPairVariance corrData 0 1, ccAssetVariance corrData "A",
        ccAssetVariance corrData "B"⟩ := rfl
  unfold calculateCorrelations
  rw [if_neg (by decide)]
  rw [show pairIndexList corrData.length = [(0, 1)] from by decide]
  simp only [List.map_cons, List.map_nil]
  rw [List.mergeSort_singleton, hraweq]
  unfold ccNormalize
  rw [if_pos (by rw [corr_total]; norm_num)]
  show [(⟨"A", "B", "AssetA", "AssetB", "cA", "cB",
      pearsonCorrelation (ccAligned corrData "A") (ccAligned corrData "B"),
      ccPairVariance corrData 0 1 / ccTotalVariance corrData * 100,
      ccAssetVariance corrData "A" / ccTotalVariance corrData * 100,
      ccAssetVariance corrData "B" / ccTotalVariance corrData * 100⟩
      : CorrelationPair)] = [corrPair]
  rw [corr_pearson0, hpv, havA, havB, corr_total]
  norm_num [corrPair, CorrelationPair.mk.injEq]

/-- Two assets with empty return series: all aligned vectors are empty and
the total portfolio variance is 0. -/
def zAsset1 : PortfolioReturnData := ⟨"Z1", "Z1", "c1", []⟩

/-- Second empty asset, see `zAsset1`. -/
def zAsset2 : PortfolioReturnData := ⟨"Z2", "Z2", "c2", []⟩

/-- Two-asset all-empty input with zero total variance. -/
def zeroData : List PortfolioReturnData := [zAsset1, zAsset2]

theorem zero_std (s : String) : ccStd zeroData s = 0 := rfl

theorem zero_total : ccTotalVariance zeroData = 0 := by
  unfold ccTotalVariance ccDiagTotal
  rw [show ccSymbols zeroData = ["Z1", "Z2"] from rfl,
    show pairIndexList zeroData.length = [(0, 1)] from by decide]
  simp only [List.map_cons, List.map_nil, List.sum_cons, List.sum_nil]
  unfold ccPairVariance ccCov ccAssetVariance
  rw [zero_std "Z1", zero_std "Z2",
    show (zeroData.getD 0 pdr0).symbol = "Z1" from rfl,
    show (zeroData.getD 1 pdr0).symbol = "Z2" from rfl,
    zero_std "Z1", zero_std "Z2"]
  ring

/-- The single (unnormalized) pair produced for `zeroData`. -/
def zPair : CorrelationPair :=
  ⟨"Z1", "Z2", "Z1", "Z2", "c1", "c2", 0, 0, 0, 0⟩

theorem zero_pairs : calculateCorrelations zeroData = [zPair] := by
  have hraweq : ccRawPair zeroData 0 1
      = ⟨"Z1", "Z2", "Z1", "Z2", "c1", "c2",
        pearsonCorrelation (ccAligned zeroData "Z1") (ccAligned zeroData "Z2"),
        ccPairVariance zeroData 0 1, ccAssetVariance zeroData "Z1",
        ccAssetVariance zeroData "Z2"⟩ := rfl
  have hp0 : pearsonCorrelation (ccAligned zeroData "Z1")
      (ccAligned zeroData "Z2") = 0 := by
    rw [show ccAligned zeroData "Z1" = [] from rfl]
    simp [pearsonCorrelation]
  have hpv : ccPairVariance zeroData 0 1 = 0 := by
    unfold ccPairVariance ccCov
    rw [show (zeroData.getD 1 pdr0).symbol = "Z2" from rfl, zero_std "Z2"]
    ring
  have hav : ∀ s, ccAssetVariance zeroData s = 0 := by
    intro s
    unfold ccAssetVariance
    rw [zero_std s]
    ring
  unfold calculateCorrelations
  rw [if_neg (by decide)]
  rw [show pairIndexList zeroData.length = [(0, 1)] from by decide]
  simp only [List.map_cons, List.map_nil]
  rw [List.mergeSort_singleton, hraweq]
  unfold ccNormalize
  rw [if_neg (by rw [zero_total]; exact lt_irrefl 0)]
  rw [hp0, hpv, hav "Z1", hav "Z2"]
  rfl

/-- C8 witness: `calculateCorrelations_bounds` at the concrete two-asset
input whose single pair has correlation 0. -/
theorem calculateCorrelations_bounds_witness :
    -1 ≤ corrPair.correlation ∧ corrPair.correlation ≤ 1 :=
  calculateCorrelations_bounds corrData corrPair
    (by rw [corr_pairs]; exact List.mem_singleton.mpr rfl)

/-- C3 witness: `calculateCorrelations_variance_sum` at the concrete
two-asset input with total variance 1/16. -/
theorem calculateCorrelations_variance_sum_witness :
    ((corrData.map (fun a =>
        ccAssetVariance corrData a.symbol / ccTotalVariance corrData * 100)).sum
      + ((calculateCorrelations corrData).map
          (fun p => p.varianceContribution)).sum = 100)
    ∧ ∀ p ∈ calculateCorrelations corrData,
        p.varianceA
          = ccAssetVariance corrData p.symbolA / ccTotalVariance corrData * 100
        ∧ p.varianceB
          = ccAssetVariance corrData p.symbolB / ccTotalVariance corrData * 100 :=
  calculateCorrelations_variance_sum corrData (by decide)
    (by rw [corr_total]; norm_num)

/-- C9 witness: the zero-variance guard applied to `corrData` (asset `"B"`
has zero standard deviation) and the unnormalized branch applied to
`zeroData` (total variance 0). -/
theorem calculateCorrelations_zero_variance_guard_witness :
    ((corrPair.symbolA = "B" → corrPair.correlation = 0
        ∧ corrPair.varianceContribution = 0 ∧ corrPair.varianceA = 0)
      ∧ (corrPair.symbolB = "B" → corrPair.correlation = 0
        ∧ corrPair.varianceContribution = 0 ∧ corrPair.varianceB = 0))
    ∧ zPair ∈ (pairIndexList zeroData.length).map
        (fun ij => ccRawPair zeroData ij.1 ij.2) :=
  ⟨calculateCorrelations_zero_variance_guard.1 corrData "B" corr_std_B
      corrPair (by rw [corr_pairs]; exact List.mem_singleton.mpr rfl),
   calculateCorrelations_zero_variance_guard.2 zeroData zero_total
      zPair (by rw [zero_pairs]; exact List.mem_singleton.mpr rfl)⟩
